import Mathlib

/-!
# Luola2 physics and world core: shallow embedding and checked properties

The C++ sources embedded here are `src/physics.h`, `src/physics.cpp`,
`src/world.cpp`, `src/terrain/polygon.h` (`ConvexPolygon::vertex`) and
`src/res/resources.h` (`Resources::getResource`).

Arithmetic model.  The program computes with `float`; the embedding computes
in an arbitrary linearly ordered field `F` (exact arithmetic, so rounding,
overflow, infinities and NaN are outside the model).  Every definition is
computable and can be run at `F := ℚ`.

The square root used by `glm::normalize` belongs to the GLM / C maths library,
not to this repository; it is taken as a parameter `sqrt : F → F`.  A result
that needs a property of the square root assumes it at the one argument where
the program calls it.  Division follows the field convention `1 / 0 = 0`, so a
call of `glm::normalize` on the zero vector is made visible by listing the
vectors handed to it (`stepNormalizeArgs`, `checkCollisionNormalizeArg`), not
by the value the model computes.

Failure model.  A failed `assert` and an access outside a `std::vector` are
explicit results (`none`, `VertexError`); a thrown exception is an `Except`
error.  Calls whose order or number matters are recorded in a log returned
next to the new state.
-/

namespace Luola

/-! ## Vectors (glm::vec2) -/

/-- Two-component vector, standing for `glm::vec2`. -/
@[ext]
structure Vec2 (F : Type) where
  x : F
  y : F
deriving DecidableEq

namespace Vec2

variable {F : Type} [LinearOrderedField F]

instance : Zero (Vec2 F) := ⟨⟨0, 0⟩⟩

instance : Add (Vec2 F) := ⟨fun a b => ⟨a.x + b.x, a.y + b.y⟩⟩

instance : Sub (Vec2 F) := ⟨fun a b => ⟨a.x - b.x, a.y - b.y⟩⟩

instance : Neg (Vec2 F) := ⟨fun a => ⟨-a.x, -a.y⟩⟩

/-- Vector times scalar, `v * k` in the source. -/
def mulS (v : Vec2 F) (k : F) : Vec2 F := ⟨v.x * k, v.y * k⟩

/-- Scalar times vector, `k * v` in the source. -/
def sMul (k : F) (v : Vec2 F) : Vec2 F := ⟨k * v.x, k * v.y⟩

/-- Inner product, `glm::dot`. -/
def dot (a b : Vec2 F) : F := a.x * b.x + a.y * b.y

/-- Unit vector in the direction of `v`, `glm::normalize`, which GLM computes as
`v * inversesqrt(dot(v, v))` with `inversesqrt(x) = 1 / sqrt(x)`. -/
def normalize (sqrt : F → F) (v : Vec2 F) : Vec2 F :=
  v.mulS (1 / sqrt (dot v v))

end Vec2

open Vec2

/-! ## Physical (physics.h) -/

/-- State of a physical object: the five private members of `class Physical`. -/
structure Physical (F : Type) where
  m_pos : Vec2 F
  m_vel : Vec2 F
  m_imp : Vec2 F
  m_mass : F
  m_radius : F
deriving DecidableEq

namespace Physical

variable {F : Type} [LinearOrderedField F]

/-- Simulation time step: `TIMESTEP = 1.0f / 60.0f`. -/
def TIMESTEP : F := 1 / 60

/-- Getter `position()`. -/
def position (p : Physical F) : Vec2 F := p.m_pos

/-- Getter `velocity()`. -/
def velocity (p : Physical F) : Vec2 F := p.m_vel

/-- Getter `impulse()`: the impulse accumulator. -/
def impulse (p : Physical F) : Vec2 F := p.m_imp

/-- Getter `mass()`. -/
def mass (p : Physical F) : F := p.m_mass

/-- Inverse mass, computed on demand: `imass() = 1.0f / m_mass`. -/
def imass (p : Physical F) : F := 1 / p.m_mass

/-- Getter `radius()`. -/
def radius (p : Physical F) : F := p.m_radius

/-- Method `addImpulse(impulse)`: `m_imp += impulse`. -/
def addImpulse (p : Physical F) (impulse : Vec2 F) : Physical F :=
  { p with m_imp := p.m_imp + impulse }

end Physical

/-! ## Integration (physics.cpp) -/

/-- Stage derivative of the integrator: `struct Derivate`. -/
structure Derivate (F : Type) where
  dpos : Vec2 F
  dvel : Vec2 F
deriving DecidableEq

section Integration

variable {F : Type} [LinearOrderedField F]

/-- Value-initialised `Derivate()`: both members are zero vectors. -/
def Derivate.zero : Derivate F := ⟨0, 0⟩

/-- Function `acceleration(vel, drag, mass)`: gravity plus air resistance,
`vec2(0, -9.81) - (normalize(vel) * drag * dot(vel, vel) * mass)`. -/
def acceleration (sqrt : F → F) (vel : Vec2 F) (drag mass : F) : Vec2 F :=
  (⟨0, -(981 / 100)⟩ : Vec2 F)
    - (((normalize sqrt vel).mulS drag).mulS (dot vel vel)).mulS mass

/-- Function `evaluate(obj, dt, d)`: the derivative at the stage velocity
`obj.velocity() + d.dvel * dt`, with the fixed drag coefficient `0.1`. -/
def evaluate (sqrt : F → F) (obj : Physical F) (dt : F) (d : Derivate F) : Derivate F :=
  let vel := obj.velocity + d.dvel.mulS dt
  let drag : F := 1 / 10
  { dpos := vel, dvel := acceleration sqrt vel drag obj.mass }

/-- First phase of `Physical::step()` (physics.cpp lines 51-52):
`m_vel += m_imp * imass(); m_imp = vec2();`. -/
def Physical.applyImpulse (p : Physical F) : Physical F :=
  { p with m_vel := p.m_vel + p.m_imp.mulS p.imass, m_imp := 0 }

/-- Second phase of `Physical::step()` (physics.cpp lines 55-64): the four
`evaluate` calls and the weighted update of position and velocity. -/
def Physical.integrate (sqrt : F → F) (p : Physical F) : Physical F :=
  let a := evaluate sqrt p 0 Derivate.zero
  let b := evaluate sqrt p (Physical.TIMESTEP * (1 / 2)) a
  let c := evaluate sqrt p (Physical.TIMESTEP * (1 / 2)) b
  let d := evaluate sqrt p Physical.TIMESTEP c
  let dposdt := sMul (1 / 6) (a.dpos + sMul 2 (b.dpos + c.dpos) + d.dpos)
  let dveldt := sMul (1 / 6) (a.dvel + sMul 2 (b.dvel + c.dvel) + d.dvel)
  { p with m_pos := p.m_pos + dposdt.mulS Physical.TIMESTEP,
           m_vel := p.m_vel + dveldt.mulS Physical.TIMESTEP }

/-- Method `Physical::step()`: apply the accumulated impulse, then integrate. -/
def Physical.step (sqrt : F → F) (p : Physical F) : Physical F :=
  (p.applyImpulse).integrate sqrt

end Integration

/-! ## Collision (physics.cpp) -/

/-- Outcome of `a.checkCollision(b)`: the returned boolean and the state of the
receiver (`self`) and of the argument (`other`) after the call. -/
structure Collision (F : Type) where
  ret : Bool
  self : Physical F
  other : Physical F
deriving DecidableEq

section CollisionCode

variable {F : Type} [LinearOrderedField F]

/-- Method `Physical::checkCollision(other)`. -/
def Physical.checkCollision (sqrt : F → F) (self other : Physical F) : Collision F :=
  let distv := self.position - other.position
  let dd := dot distv distv
  let r := self.radius + other.radius
  if dd > r * r then
    ⟨false, self, other⟩
  else
    let normal := normalize sqrt distv
    let collv := self.velocity - other.velocity
    let impact_speed := dot collv normal
    if impact_speed > 0 then
      ⟨true, self, other⟩
    else
      let cor : F := 95 / 100
      let j := -(1 + cor) * impact_speed / (self.imass + other.imass)
      let impulse := sMul j normal
      ⟨true, self.addImpulse impulse, other.addImpulse (-impulse)⟩

/-- Two successive calls on the same receiver, `a.checkCollision(b)` followed by
`a.checkCollision(c)`: the two returned booleans (for `b`, then for `c`) and the
final states of `a`, `b` and `c`. -/
def checkTwo (sqrt : F → F) (a b c : Physical F) :
    Bool × Bool × Physical F × Physical F × Physical F :=
  let r1 := a.checkCollision sqrt b
  let r2 := r1.self.checkCollision sqrt c
  (r1.ret, r2.ret, r2.self, r1.other, r2.other)

end CollisionCode

/-! ## A square root on the rationals, for running the model -/

/-- Integer square root by downward search: the largest `k ≤ fuel` with
`k * k ≤ n`. -/
def natRoot (n : Nat) : Nat → Nat
  | 0 => 0
  | k + 1 => if (k + 1) * (k + 1) ≤ n then k + 1 else natRoot n k

/-- Square root on `ℚ`, exact on quotients of perfect squares (integer square
roots of numerator and denominator). -/
def ratSqrt (q : ℚ) : ℚ :=
  (natRoot q.num.toNat q.num.toNat : ℚ) / (natRoot q.den q.den : ℚ)

/-! ## Specification-side notions -/
section SpecSide
variable {F : Type} [LinearOrderedField F]

/-- Total momentum of two bodies, `m1 * v1 + m2 * v2`. -/
def momentum (a b : Physical F) : Vec2 F :=
  sMul a.mass a.velocity + sMul b.mass b.velocity

/-- Sum of a list of impulses. -/
def impulseSum : List (Vec2 F) → Vec2 F
  | [] => 0
  | i :: rest => i + impulseSum rest

/-- One classical fourth-order Runge-Kutta step of size `h` for the system
`d(pos)/dt = vel`, `d(vel)/dt = acc vel`, written from its textbook statement:
returns the new position and the new velocity. -/
def rk4Step (acc : Vec2 F → Vec2 F) (h : F) (pos v0 : Vec2 F) : Vec2 F × Vec2 F :=
  let u1 := v0
  let k1 := acc u1
  let u2 := v0 + sMul (h / 2) k1
  let k2 := acc u2
  let u3 := v0 + sMul (h / 2) k2
  let k3 := acc u3
  let u4 := v0 + sMul h k3
  let k4 := acc u4
  (pos + sMul (h / 6) (u1 + sMul 2 u2 + sMul 2 u3 + u4),
   v0 + sMul (h / 6) (k1 + sMul 2 k2 + sMul 2 k3 + k4))

end SpecSide

/-! ## Concrete bodies over `ℚ` -/

/-- Body at `(3, 4)` moving towards the origin at speed 5; mass 2, radius 3. -/
def exA : Physical ℚ := ⟨⟨3, 4⟩, ⟨-3, -4⟩, 0, 2, 3⟩

/-- Body at the origin moving towards `(3, 4)` at speed 5; mass 2, radius 2. -/
def exB : Physical ℚ := ⟨⟨0, 0⟩, ⟨3, 4⟩, 0, 2, 2⟩

/-- Body at `(3, 4)` moving away from the origin; mass 2, radius 3. -/
def exC : Physical ℚ := ⟨⟨3, 4⟩, ⟨3, 4⟩, 0, 2, 3⟩

/-- Body at rest at the origin; mass 2, radius 2. -/
def exD : Physical ℚ := ⟨⟨0, 0⟩, ⟨0, 0⟩, 0, 2, 2⟩

/-- Body at rest at `(6, 8)`; mass 1, radius 3. -/
def exE : Physical ℚ := ⟨⟨6, 8⟩, ⟨0, 0⟩, 0, 1, 3⟩

/-- The body `exA` with the impulse `(1, 0)` already in its accumulator. -/
def exP : Physical ℚ := ⟨⟨3, 4⟩, ⟨-3, -4⟩, ⟨1, 0⟩, 2, 3⟩

/-- Body with velocity `(1, 0)` and the negative mass `-1`, as
`Physical(pos, -1, 1)` followed by `setVelocity` builds it. -/
def exN : Physical ℚ := ⟨⟨0, 0⟩, ⟨1, 0⟩, 0, -1, 1⟩

/-! ## Construction, setters and the arguments of `glm::normalize` -/

section Interface

variable {F : Type} [LinearOrderedField F]

/-- Constructor `Physical::Physical()`: mass and radius are `1.0f`; the three
vectors are default-constructed `glm::vec2`, which are zero vectors. -/
def Physical.default : Physical F := ⟨0, 0, 0, 1, 1⟩

/-- Constructor `Physical::Physical(pos, mass, radius)`: stores its arguments
as they are, zero velocity, default-constructed (zero) accumulator. -/
def Physical.new (pos : Vec2 F) (mass radius : F) : Physical F :=
  ⟨pos, 0, 0, mass, radius⟩

/-- Method `setPosition(pos)`. -/
def Physical.setPosition (p : Physical F) (pos : Vec2 F) : Physical F :=
  { p with m_pos := pos }

/-- Method `setVelocity(vel)`. -/
def Physical.setVelocity (p : Physical F) (vel : Vec2 F) : Physical F :=
  { p with m_vel := vel }

/-- Method `setMass(mass)`: `m_mass = mass`, nothing else. -/
def Physical.setMass (p : Physical F) (mass : F) : Physical F :=
  { p with m_mass := mass }

/-- Method `setRadius(radius)`: `assert(radius>0); m_radius = radius;`.  A failed
assertion is the result `none`. -/
def Physical.setRadius (p : Physical F) (radius : F) : Option (Physical F) :=
  if radius > 0 then some { p with m_radius := radius } else none

/-- The local `vel` of `evaluate(obj, dt, d)`: the vector that `acceleration`
hands to `glm::normalize`. -/
def evaluateVel (obj : Physical F) (dt : F) (d : Derivate F) : Vec2 F :=
  obj.velocity + d.dvel.mulS dt

/-- The four vectors that one `Physical::step()` hands to `glm::normalize`, in
call order: the `vel` of each of the four `evaluate` calls, made after the
accumulated impulse has been applied. -/
def Physical.stepNormalizeArgs (sqrt : F → F) (p : Physical F) : List (Vec2 F) :=
  let q := p.applyImpulse
  let a := evaluate sqrt q 0 Derivate.zero
  let b := evaluate sqrt q (Physical.TIMESTEP * (1 / 2)) a
  let c := evaluate sqrt q (Physical.TIMESTEP * (1 / 2)) b
  [evaluateVel q 0 Derivate.zero,
   evaluateVel q (Physical.TIMESTEP * (1 / 2)) a,
   evaluateVel q (Physical.TIMESTEP * (1 / 2)) b,
   evaluateVel q Physical.TIMESTEP c]

/-- The vector that `a.checkCollision(b)` hands to `glm::normalize`: the
position difference when the pair is within summed-radius range, nothing when
the call returns early. -/
def Physical.checkCollisionNormalizeArg (self other : Physical F) : Option (Vec2 F) :=
  let distv := self.position - other.position
  let dd := dot distv distv
  let r := self.radius + other.radius
  if dd > r * r then none else some distv

/-- Bodies obtainable through the public interface when every mass handed to a
constructor or to `setMass` is positive and every radius handed to the
three-argument constructor is positive. -/
inductive Physical.Reachable (sqrt : F → F) : Physical F → Prop
  | default : Reachable sqrt Physical.default
  | new (pos : Vec2 F) (mass radius : F) :
      0 < mass → 0 < radius → Reachable sqrt (Physical.new pos mass radius)
  | setPosition (p : Physical F) (pos : Vec2 F) :
      Reachable sqrt p → Reachable sqrt (p.setPosition pos)
  | setVelocity (p : Physical F) (vel : Vec2 F) :
      Reachable sqrt p → Reachable sqrt (p.setVelocity vel)
  | addImpulse (p : Physical F) (impulse : Vec2 F) :
      Reachable sqrt p → Reachable sqrt (p.addImpulse impulse)
  | setMass (p : Physical F) (mass : F) :
      Reachable sqrt p → 0 < mass → Reachable sqrt (p.setMass mass)
  | setRadius (p q : Physical F) (radius : F) :
      Reachable sqrt p → p.setRadius radius = some q → Reachable sqrt q
  | step (p : Physical F) : Reachable sqrt p → Reachable sqrt (p.step sqrt)
  | checkSelf (a b : Physical F) :
      Reachable sqrt a → Reachable sqrt b → Reachable sqrt (a.checkCollision sqrt b).self
  | checkOther (a b : Physical F) :
      Reachable sqrt a → Reachable sqrt b → Reachable sqrt (a.checkCollision sqrt b).other

end Interface

/-! ## Terrain polygons (terrain/bounds.h, terrain/polygon.h) -/

/-- Bounding rectangle `terrain::BRect`: its two corner members. -/
structure BRect (F : Type) where
  m_btmleft : Vec2 F
  m_topright : Vec2 F

/-- The three private members of `terrain::ConvexPolygon`; `terrain::Point` is a
two-component vector. -/
structure ConvexPolygon (F : Type) where
  m_points : List (Vec2 F)
  m_normals : List (Vec2 F)
  m_bounds : BRect F

/-- How a call of `ConvexPolygon::vertex` can go wrong: the `assert` fails, or
the unchecked `operator[]` of the vertex vector is used outside the vector. -/
inductive VertexError where
  | assertion
  | outOfBounds
deriving DecidableEq

section Polygon

variable {F : Type}

/-- Method `vertexCount()`: `m_points.size()` as an `int`. -/
def ConvexPolygon.vertexCount (poly : ConvexPolygon F) : Int := poly.m_points.length

/-- Element access `m_points[k]` of the vertex vector: defined only for
`0 ≤ k < size`. -/
def ConvexPolygon.pointAt (poly : ConvexPolygon F) (k : Int) : Except VertexError (Vec2 F) :=
  if 0 ≤ k then
    match poly.m_points[k.toNat]? with
    | some v => .ok v
    | none => .error .outOfBounds
  else .error .outOfBounds

/-- Method `vertex(i)`. -/
def ConvexPolygon.vertex (poly : ConvexPolygon F) (i : Int) : Except VertexError (Vec2 F) :=
  let s : Int := poly.m_points.length
  if i ≥ -1 ∧ i ≤ s then
    if i < 0 then poly.pointAt (s - 1)
    else if i < s then poly.pointAt i
    else poly.pointAt 0
  else .error .assertion

end Polygon

/-- Triangle with vertices `(0, 0)`, `(1, 0)`, `(0, 1)`. -/
def exTriangle : ConvexPolygon ℚ :=
  ⟨[⟨0, 0⟩, ⟨1, 0⟩, ⟨0, 1⟩], [], ⟨⟨0, 0⟩, ⟨1, 1⟩⟩⟩

/-! ## Resource registry (res/resources.h) -/

/-- Exception `resource::ResourceException`: the three strings handed to its
constructor, which the getters `datafile()`, `resource()` and `error()` return.
The constructor body is outside the sources embedded here. -/
structure ResourceException where
  datafile : String
  resource : String
  error : String
deriving DecidableEq

/-- Exception `resource::NotFound(datafile, resource)`: a `ResourceException`
whose error string is built from the resource name. -/
def NotFound (datafile resource : String) : ResourceException :=
  ⟨datafile, resource, "resource \"" ++ resource ++ "\" not found!"⟩

section Registry

variable {V : Type}

/-- Member `std::unordered_map::count(key)`: `1` when the key is present, `0`
otherwise.  The map is a list of key-value entries. -/
def umCount (m : List (String × V)) (key : String) : Nat :=
  if (m.lookup key).isSome then 1 else 0

/-- Member `std::unordered_map::operator[](key)`: the stored value when the
key is present; otherwise a value-initialised entry (a null pointer, `null`)
is inserted and returned. -/
def umIndex (null : V) (m : List (String × V)) (key : String) : V × List (String × V) :=
  match m.lookup key with
  | some v => (v, m)
  | none => (null, (key, null) :: m)

/-- Method `Resources::getResource(name)`: the outcome (thrown exception or
returned pointer) together with the registry `m_resources` after the call. -/
def getResource (null : V) (m_resources : List (String × V)) (name : String) :
    Except ResourceException V × List (String × V) :=
  if umCount m_resources name = 0 then
    (.error (NotFound "" name), m_resources)
  else
    let r := umIndex null m_resources name
    (.ok r.1, r.2)

end Registry

/-- Registry with the two entries `"ship"` and `"font"`. -/
def exRegistry : List (String × Nat) := [("ship", 1), ("font", 2)]

/-! ## World (world.cpp)

The classes `terrain::Zone`, `terrain::Solid`, `Ship` and `Projectile` are used
by `world.cpp` but are not among the sources embedded here.  What `world.cpp`
calls on them is taken as a parameter: a zone is its two methods, the methods
of a solid are the fields of `SolidOps` over an arbitrary state type `S`, and
the per-ship hook `shipStep` is an argument of `World.step`. -/

/-- A `terrain::Zone` as `World::zoneAt` sees it: `hasPoint(p)` and
`apply(zp)`, the latter updating the `ZoneProps` (type `P`) it is given. -/
structure Zone (F P : Type) where
  hasPoint : Vec2 F → Bool
  apply : P → P

/-- The methods of `terrain::Solid` that `world.cpp` calls, over a solid state
`S`.  `circleCollision(p, r, v, cp, normal)` yields the values it writes to
`cp` and `normal` when it returns true and leaves them alone when it returns
false; `nibble(hole)` returns whether the geometry changed, with the new state;
`updateGl()` refreshes the graphics state. -/
structure SolidOps (F S : Type) where
  circleCollision : S → Vec2 F → F → Vec2 F → Option (Vec2 F × Vec2 F)
  nibble : S → ConvexPolygon F → Bool × S
  updateGl : S → S

/-- A `Ship` as `world.cpp` sees it: `physics()` and `player()`. -/
structure Ship (F : Type) where
  m_physics : Physical F
  m_player : Int

/-- A `Projectile` as `world.cpp` sees it: `physics()`. -/
structure Projectile (F : Type) where
  m_physics : Physical F

/-- The containers of `class World` and its root zone properties. -/
structure World (F P S : Type) where
  m_ships : List (Ship F)
  m_projectiles : List (Projectile F)
  m_zones : List (Zone F P)
  m_dyn_terrain : List S
  m_static_terrain : List S
  m_rootzone : P

/-- What `World::checkTerrainCollision` leaves behind: the returned boolean, the
out-parameters `cp` and `normal` after the call, and the solids whose
`circleCollision` was called, in call order. -/
structure TerrainQuery (F S : Type) where
  ret : Bool
  cp : Vec2 F
  normal : Vec2 F
  queried : List S

/-- A call made by `World::makeHole` on the dynamic solid with the given index
in `m_dyn_terrain`. -/
inductive SolidCall where
  | nibble (i : Nat)
  | updateGl (i : Nat)
deriving DecidableEq

/-- A body of the world: the ship or the projectile with the given index. -/
inductive BodyRef where
  | ship (i : Nat)
  | projectile (i : Nat)
deriving DecidableEq

/-- A call made by `World::step`: the ship hook `shipStep`, an integration
`Physical::step` of a body, or `a.checkCollision(b)` with receiver `a`. -/
inductive StepEvent where
  | shipStep (i : Nat)
  | integrate (b : BodyRef)
  | check (a b : BodyRef)
deriving DecidableEq

section WorldCode

variable {F P S : Type}

/-- The `for` loop of `World::zoneAt` over the remaining zones. -/
def zoneAtLoop (p : Vec2 F) : List (Zone F P) → P → P
  | [], zp => zp
  | z :: rest, zp => zoneAtLoop p rest (if z.hasPoint p then z.apply zp else zp)

/-- Method `World::zoneAt(p)`. -/
def World.zoneAt (w : World F P S) (p : Vec2 F) : P :=
  zoneAtLoop p w.m_zones w.m_rootzone

/-- Method `World::addZone(zone)`: `m_zones.push_back(zone)`; the following
`zone->updateGl()` touches graphics state only. -/
def World.addZone (w : World F P S) (zone : Zone F P) : World F P S :=
  { w with m_zones := w.m_zones ++ [zone] }

/-- One of the two `for` loops of `World::checkTerrainCollision` over the
remaining solids: the hit that made it return true, if any, and the solids
queried so far. -/
def terrainLoop (ops : SolidOps F S) (p : Vec2 F) (r : F) (v : Vec2 F) :
    List S → List S → Option (Vec2 F × Vec2 F) × List S
  | [], q => (none, q)
  | s :: rest, q =>
    match ops.circleCollision s p r v with
    | some hit => (some hit, q ++ [s])
    | none => terrainLoop ops p r v rest (q ++ [s])

/-- Method `World::checkTerrainCollision(p, r, v, cp, normal)`. -/
def World.checkTerrainCollision (ops : SolidOps F S) (w : World F P S)
    (p : Vec2 F) (r : F) (v cp normal : Vec2 F) : TerrainQuery F S :=
  match terrainLoop ops p r v w.m_dyn_terrain [] with
  | (some hit, q) => ⟨true, hit.1, hit.2, q⟩
  | (none, q) =>
    match terrainLoop ops p r v w.m_static_terrain q with
    | (some hit, q2) => ⟨true, hit.1, hit.2, q2⟩
    | (none, q2) => ⟨false, cp, normal, q2⟩

/-- The `for` loop of `World::makeHole` over the remaining dynamic solids, the
first of which has index `i`: the solids afterwards and the calls made. -/
def makeHoleLoop (ops : SolidOps F S) (hole : ConvexPolygon F) :
    List S → Nat → List S × List SolidCall
  | [], _ => ([], [])
  | s :: rest, i =>
    let r := ops.nibble s hole
    let t := makeHoleLoop ops hole rest (i + 1)
    if r.1 then
      (ops.updateGl r.2 :: t.1, [SolidCall.nibble i, SolidCall.updateGl i] ++ t.2)
    else
      (r.2 :: t.1, [SolidCall.nibble i] ++ t.2)

/-- Method `World::makeHole(hole)`: the world afterwards and the calls made on
the dynamic solids, in call order. -/
def World.makeHole (ops : SolidOps F S) (w : World F P S) (hole : ConvexPolygon F) :
    World F P S × List SolidCall :=
  let r := makeHoleLoop ops hole w.m_dyn_terrain 0
  ({ w with m_dyn_terrain := r.1 }, r.2)

/-- In-place update of the element with index `i` of a container. -/
def modifyAt {α : Type} (f : α → α) : List α → Nat → List α
  | [], _ => []
  | x :: xs, 0 => f x :: xs
  | x :: xs, i + 1 => x :: modifyAt f xs i

end WorldCode

section WorldStep

variable {F : Type} [LinearOrderedField F] {P S : Type}

/-- The call `m_ships[i].physics().checkCollision(m_ships[j].physics())` of
`World::step`, acting on the ship container. -/
def collideShips (sqrt : F → F) (i j : Nat) (ships : List (Ship F)) : List (Ship F) :=
  match ships[i]?, ships[j]? with
  | some a, some b =>
    let r := a.m_physics.checkCollision sqrt b.m_physics
    (ships.set i { a with m_physics := r.self }).set j { b with m_physics := r.other }
  | _, _ => ships

/-- Body of the ship loop of `World::step` for the ship with index `i`, on the
world and the log of calls so far: the hook, the integration, then the inner
loop over `j = i+1 .. n-1`.  The ship container is not resized inside the loops,
so its size `n` is read once. -/
def World.shipIteration (sqrt : F → F) (shipStep : World F P S → Ship F → Ship F)
    (n i : Nat) (st : World F P S × List StepEvent) : World F P S × List StepEvent :=
  let w1 : World F P S := { st.1 with m_ships := modifyAt (shipStep st.1) st.1.m_ships i }
  let ships2 := modifyAt (fun s => { s with m_physics := s.m_physics.step sqrt }) w1.m_ships i
  let w2 : World F P S := { w1 with m_ships := ships2 }
  (List.range' (i + 1) (n - (i + 1))).foldl
    (fun s j =>
      ({ s.1 with m_ships := collideShips sqrt i j s.1.m_ships },
       s.2 ++ [StepEvent.check (BodyRef.ship i) (BodyRef.ship j)]))
    (w2, st.2 ++ [StepEvent.shipStep i, StepEvent.integrate (BodyRef.ship i)])

/-- Body of the projectile loop of `World::step` for the projectile with index
`k`. -/
def World.projectileIteration (sqrt : F → F) (k : Nat)
    (st : World F P S × List StepEvent) : World F P S × List StepEvent :=
  let ps := modifyAt (fun q => { q with m_physics := q.m_physics.step sqrt })
    st.1.m_projectiles k
  ({ st.1 with m_projectiles := ps }, st.2 ++ [StepEvent.integrate (BodyRef.projectile k)])

/-- Method `World::step()`: the world afterwards and the calls made, in call
order.  The line printed for a detected collision is not part of the model. -/
def World.step (sqrt : F → F) (shipStep : World F P S → Ship F → Ship F)
    (w : World F P S) : World F P S × List StepEvent :=
  let n := w.m_ships.length
  let st := (List.range n).foldl (fun st i => World.shipIteration sqrt shipStep n i st) (w, [])
  (List.range st.1.m_projectiles.length).foldl
    (fun st k => World.projectileIteration sqrt k st) st

end WorldStep
/-! ## A concrete world over `ℚ` -/

/-- Zone covering the half-plane `x ≥ 0`; it sets the first zone property to 5. -/
def exZ1 : Zone ℚ (Nat × Nat) := ⟨fun p => decide (0 ≤ p.x), fun zp => (5, zp.2)⟩

/-- Zone covering the half-plane `y ≥ 0`; it sets the first zone property to 7. -/
def exZ2 : Zone ℚ (Nat × Nat) := ⟨fun p => decide (0 ≤ p.y), fun zp => (7, zp.2)⟩

/-- Solids whose state is a number of remaining pieces: a solid with pieces left
is hit by every circle, at the circle centre with normal `(0, 1)`, and loses a
piece to every hole; a graphics refresh is made visible by adding 10. -/
def exOps : SolidOps ℚ Nat :=
  ⟨fun s p _ _ => if 0 < s then some (p, ⟨0, 1⟩) else none,
   fun s _ => (decide (0 < s), s - 1),
   fun s => s + 10⟩

/-- World with three ships, one projectile, no zones, the dynamic solids `0`
and `2`, the static solid `1` and root zone properties `(1, 1)`. -/
def exWorld : World ℚ (Nat × Nat) Nat :=
  ⟨[⟨exA, 0⟩, ⟨exB, 1⟩, ⟨exE, 2⟩], [⟨exD⟩], [], [0, 2], [1], (1, 1)⟩

/-! ## The schedule of `World::step` -/

/-- The collision checks that the ship loop makes for the ship with index `i`
in a world of `n` ships: receiver `i`, argument `j = i+1 .. n-1`. -/
def pairChecks (n i : Nat) : List StepEvent :=
  (List.range' (i + 1) (n - (i + 1))).map
    (fun j => StepEvent.check (BodyRef.ship i) (BodyRef.ship j))

/-- The calls of one iteration of the ship loop. -/
def shipEvents (n i : Nat) : List StepEvent :=
  [StepEvent.shipStep i, StepEvent.integrate (BodyRef.ship i)] ++ pairChecks n i

/-- The calls of one `World::step` in a world of `n` ships and `m`
projectiles. -/
def stepSchedule (n m : Nat) : List StepEvent :=
  (List.range n).flatMap (shipEvents n)
    ++ (List.range m).map (fun k => StepEvent.integrate (BodyRef.projectile k))

/-- Recogniser of collision-check calls. -/
def StepEvent.isCheck : StepEvent → Bool
  | StepEvent.check _ _ => true
  | _ => false

/-! ## The schedule of `World::makeHole` and the default polygon -/

/-- Recogniser of `nibble` calls. -/
def SolidCall.isNibble : SolidCall → Bool
  | SolidCall.nibble _ => true
  | _ => false

section MakeHoleSchedule

variable {F S : Type}

/-- The calls due on the dynamic solid `s` with index `i`: `nibble`, followed by
`updateGl` when that `nibble` returns true. -/
def solidCalls (ops : SolidOps F S) (hole : ConvexPolygon F) (i : Nat) (s : S) :
    List SolidCall :=
  SolidCall.nibble i :: (if (ops.nibble s hole).1 then [SolidCall.updateGl i] else [])

/-- The calls due on a container of dynamic solids, in container order. -/
def makeHoleSchedule (ops : SolidOps F S) (hole : ConvexPolygon F) (dyn : List S) :
    List SolidCall :=
  (dyn.enumFrom 0).flatMap (fun e => solidCalls ops hole e.1 e.2)

end MakeHoleSchedule

section DefaultPolygon

variable {F : Type} [LinearOrderedField F]

/-- Constructor `ConvexPolygon() = default`: empty vertex and normal vectors
and a blank bounding rectangle. -/
def ConvexPolygon.default : ConvexPolygon F := ⟨[], [], ⟨0, 0⟩⟩

end DefaultPolygon

/-! ## Intermediate states of `World::step` -/

section StepHistory

variable {F : Type} [LinearOrderedField F] {P S : Type}

/-- The impulse that `a.checkCollision(b)` adds to the accumulator of the
receiver `a`; the argument `b` receives the opposite impulse. -/
def checkDelta (sqrt : F → F) (a b : Physical F) : Vec2 F :=
  (a.checkCollision sqrt b).self.impulse - a.impulse

/-- A ship with an impulse added to the accumulator of its `physics()`. -/
def Ship.addImpulse (s : Ship F) (x : Vec2 F) : Ship F :=
  { s with m_physics := s.m_physics.addImpulse x }

/-- The first two statements of the ship loop body of `World::step` on one
ship: `shipStep(*this)`, then `physics().step()`. -/
def hookAndStep (sqrt : F → F) (shipStep : World F P S → Ship F → Ship F)
    (w : World F P S) (s : Ship F) : Ship F :=
  { shipStep w s with m_physics := (shipStep w s).m_physics.step sqrt }

/-- The world and the log of `World::step` after the first `i` iterations of
its ship loop. -/
def World.afterShips (sqrt : F → F) (shipStep : World F P S → Ship F → Ship F)
    (w : World F P S) (i : Nat) : World F P S × List StepEvent :=
  (List.range i).foldl
    (fun st k => World.shipIteration sqrt shipStep w.m_ships.length k st) (w, [])

/-- The ship with index `i` as its hook and its `step()` leave it in iteration
`i` of the ship loop, before the collision checks of that iteration. -/
def World.steppedShip (sqrt : F → F) (shipStep : World F P S → Ship F → Ship F)
    (w : World F P S) (i : Nat) : Option (Ship F) :=
  ((w.afterShips sqrt shipStep i).1.m_ships[i]?).map
    (hookAndStep sqrt shipStep (w.afterShips sqrt shipStep i).1)

/-- The impulse that the check with receiver `a` and argument `b` adds to the
receiver, for ships that may be absent. -/
def deltaOf (sqrt : F → F) (a b : Option (Ship F)) : Vec2 F :=
  match a, b with
  | some x, some y => checkDelta sqrt x.m_physics y.m_physics
  | _, _ => 0

/-- The impulses that ship `i` receives as the receiver of its checks
`(i, j)`, `j = i+1 .. n-1`, in one `World::step`. -/
def World.outgoing (sqrt : F → F) (shipStep : World F P S → Ship F → Ship F)
    (w : World F P S) (i : Nat) : List (Vec2 F) :=
  (List.range' (i + 1) (w.m_ships.length - (i + 1))).map
    (fun j => deltaOf sqrt (w.steppedShip sqrt shipStep i) (w.m_ships[j]?))

/-- The impulses that ship `i` receives as the argument of the checks
`(k, i)`, `k = 0 .. m-1`, in one `World::step`. -/
def World.incoming (sqrt : F → F) (shipStep : World F P S → Ship F → Ship F)
    (w : World F P S) (m i : Nat) : List (Vec2 F) :=
  (List.range m).map
    (fun k => -(deltaOf sqrt (w.steppedShip sqrt shipStep k) (w.m_ships[i]?)))

end StepHistory

/-! ## Component lemmas -/

section Components

variable {F : Type} [LinearOrderedField F]

@[simp]
theorem Vec2.zero_x : (0 : Vec2 F).x = 0 := rfl
@[simp]
theorem Vec2.zero_y : (0 : Vec2 F).y = 0 := rfl
@[simp]
theorem Vec2.add_x (a b : Vec2 F) : (a + b).x = a.x + b.x := rfl
@[simp]
theorem Vec2.add_y (a b : Vec2 F) : (a + b).y = a.y + b.y := rfl
@[simp]
theorem Vec2.sub_x (a b : Vec2 F) : (a - b).x = a.x - b.x := rfl
@[simp]
theorem Vec2.sub_y (a b : Vec2 F) : (a - b).y = a.y - b.y := rfl
@[simp]
theorem Vec2.neg_x (a : Vec2 F) : (-a).x = -a.x := rfl
@[simp]
theorem Vec2.neg_y (a : Vec2 F) : (-a).y = -a.y := rfl
@[simp]
theorem Vec2.mulS_x (a : Vec2 F) (k : F) : (a.mulS k).x = a.x * k := rfl
@[simp]
theorem Vec2.mulS_y (a : Vec2 F) (k : F) : (a.mulS k).y = a.y * k := rfl
@[simp]
theorem Vec2.sMul_x (k : F) (a : Vec2 F) : (sMul k a).x = k * a.x := rfl
@[simp]
theorem Vec2.sMul_y (k : F) (a : Vec2 F) : (sMul k a).y = k * a.y := rfl

/-- The three exits of `checkCollision`, keyed on the two tests it makes. -/
theorem checkCollision_far (sqrt : F → F) (a b : Physical F)
    (h : dot (a.position - b.position) (a.position - b.position)
          > (a.radius + b.radius) * (a.radius + b.radius)) :
    a.checkCollision sqrt b = ⟨false, a, b⟩ := by
  simp only [Physical.checkCollision, if_pos h]

theorem checkCollision_separating (sqrt : F → F) (a b : Physical F)
    (h : ¬ dot (a.position - b.position) (a.position - b.position)
          > (a.radius + b.radius) * (a.radius + b.radius))
    (hs : dot (a.velocity - b.velocity) (normalize sqrt (a.position - b.position)) > 0) :
    a.checkCollision sqrt b = ⟨true, a, b⟩ := by
  simp only [Physical.checkCollision, if_neg h, if_pos hs]

theorem checkCollision_hit (sqrt : F → F) (a b : Physical F)
    (h : ¬ dot (a.position - b.position) (a.position - b.position)
          > (a.radius + b.radius) * (a.radius + b.radius))
    (hs : ¬ dot (a.velocity - b.velocity) (normalize sqrt (a.position - b.position)) > 0) :
    a.checkCollision sqrt b =
      ⟨true,
       a.addImpulse (sMul (-(1 + 95 / 100)
          * dot (a.velocity - b.velocity) (normalize sqrt (a.position - b.position))
          / (a.imass + b.imass)) (normalize sqrt (a.position - b.position))),
       b.addImpulse (-(sMul (-(1 + 95 / 100)
          * dot (a.velocity - b.velocity) (normalize sqrt (a.position - b.position))
          / (a.imass + b.imass)) (normalize sqrt (a.position - b.position))))⟩ := by
  simp only [Physical.checkCollision, if_neg h, if_neg hs]

end Components

section UnitNormal
variable {F : Type} [LinearOrderedField F]

theorem dot_self_pos (v : Vec2 F) (h : v ≠ 0) : 0 < dot v v := by
  have hx := mul_self_nonneg v.x
  have hy := mul_self_nonneg v.y
  rcases (add_nonneg hx hy).lt_or_eq with hlt | heq
  · exact hlt
  · exfalso
    apply h
    have h1 : v.x * v.x = 0 := by linarith
    have h2 : v.y * v.y = 0 := by linarith
    ext
    · simpa using h1
    · simpa using h2

theorem vec_sub_ne_zero (p q : Vec2 F) (h : p ≠ q) : p - q ≠ 0 := by
  intro h0
  apply h
  have hx : (p - q).x = 0 := by rw [h0]; rfl
  have hy : (p - q).y = 0 := by rw [h0]; rfl
  simp only [Vec2.sub_x, Vec2.sub_y] at hx hy
  ext
  · exact sub_eq_zero.mp hx
  · exact sub_eq_zero.mp hy

/-- With a square root that is exact at `dot v v`, `normalize v` is a unit
vector for every non-zero `v`. -/
theorem dot_normalize_self (sqrt : F → F) (v : Vec2 F) (h : v ≠ 0)
    (hsq : sqrt (dot v v) * sqrt (dot v v) = dot v v) :
    dot (normalize sqrt v) (normalize sqrt v) = 1 := by
  have hpos := dot_self_pos v h
  have hne : sqrt (dot v v) ≠ 0 := by
    intro h0
    rw [h0, mul_zero] at hsq
    exact absurd hsq.symm (ne_of_gt hpos)
  have e : dot (normalize sqrt v) (normalize sqrt v)
      = dot v v * (1 / sqrt (dot v v)) * (1 / sqrt (dot v v)) := by
    simp only [Vec2.normalize, dot, Vec2.mulS_x, Vec2.mulS_y]
    ring
  rw [e]
  nth_rewrite 1 [← hsq]
  field_simp

end UnitNormal

section Accumulators
variable {F : Type} [LinearOrderedField F]

/-- Both bodies leave `checkCollision` with equal and opposite additions to
their accumulators. -/
theorem checkCollision_delta (sqrt : F → F) (a b : Physical F) :
    ∃ δ : Vec2 F, (a.checkCollision sqrt b).self = a.addImpulse δ ∧
      (a.checkCollision sqrt b).other = b.addImpulse (-δ) := by
  have h0 : ∀ p : Physical F, p = p.addImpulse 0 ∧ p = p.addImpulse (-0) := by
    intro p
    constructor <;> cases p <;> simp only [Physical.addImpulse, Physical.mk.injEq, true_and,
        and_true] <;> ext <;> simp
  by_cases h : dot (a.position - b.position) (a.position - b.position)
      > (a.radius + b.radius) * (a.radius + b.radius)
  · rw [checkCollision_far sqrt a b h]
    exact ⟨0, (h0 a).1, (h0 b).2⟩
  · by_cases hs : dot (a.velocity - b.velocity)
        (normalize sqrt (a.position - b.position)) > 0
    · rw [checkCollision_separating sqrt a b h hs]
      exact ⟨0, (h0 a).1, (h0 b).2⟩
    · rw [checkCollision_hit sqrt a b h hs]
      exact ⟨_, rfl, rfl⟩

theorem addImpulse_comm (p : Physical F) (i j : Vec2 F) :
    (p.addImpulse i).addImpulse j = (p.addImpulse j).addImpulse i := by
  cases p
  simp only [Physical.addImpulse, Physical.mk.injEq, true_and, and_true]
  ext <;> simp <;> ring

/-- An impulse already added to the receiver does not influence the check: it
passes through unchanged. -/
theorem checkCollision_addImpulse (sqrt : F → F) (a c : Physical F) (i : Vec2 F) :
    (a.addImpulse i).checkCollision sqrt c =
      ⟨(a.checkCollision sqrt c).ret, (a.checkCollision sqrt c).self.addImpulse i,
       (a.checkCollision sqrt c).other⟩ := by
  by_cases h : dot (a.position - c.position) (a.position - c.position)
      > (a.radius + c.radius) * (a.radius + c.radius)
  · rw [checkCollision_far sqrt a c h, checkCollision_far sqrt (a.addImpulse i) c h]
  · by_cases hs : dot (a.velocity - c.velocity)
        (normalize sqrt (a.position - c.position)) > 0
    · rw [checkCollision_separating sqrt a c h hs,
        checkCollision_separating sqrt (a.addImpulse i) c h hs]
    · rw [checkCollision_hit sqrt a c h hs, checkCollision_hit sqrt (a.addImpulse i) c h hs]
      simp only [Collision.mk.injEq, true_and]
      exact ⟨addImpulse_comm _ _ _, rfl⟩

/-- Applying the impulse to a body whose velocity already contains it and whose
accumulator is empty gives the same state as applying it to the original. -/
theorem applyImpulse_preapplied (p : Physical F) :
    Physical.applyImpulse
      { p with m_vel := ⟨p.velocity.x + p.impulse.x / p.mass,
                         p.velocity.y + p.impulse.y / p.mass⟩,
               m_imp := 0 } = p.applyImpulse := by
  cases p
  simp only [Physical.applyImpulse, Physical.velocity, Physical.impulse, Physical.mass,
    Physical.imass, Physical.mk.injEq, true_and, and_true]
  ext <;> simp [div_eq_mul_inv]

/-- Momentum bookkeeping of one check followed by impulse application: the two
bodies end with the momentum they had plus whatever was in the accumulators
before the check. -/
theorem momentum_after_check (sqrt : F → F) (a b : Physical F)
    (ha : a.m_mass ≠ 0) (hb : b.m_mass ≠ 0) :
    momentum (a.checkCollision sqrt b).self.applyImpulse
        (a.checkCollision sqrt b).other.applyImpulse
      = momentum a b + (a.impulse + b.impulse) := by
  obtain ⟨δ, hself, hother⟩ := checkCollision_delta sqrt a b
  rw [hself, hother]
  ext <;>
    simp only [momentum, Physical.applyImpulse, Physical.addImpulse, Physical.impulse,
      Physical.mass, Physical.velocity, Physical.imass, Vec2.add_x, Vec2.add_y,
      Vec2.sMul_x, Vec2.sMul_y, Vec2.mulS_x, Vec2.mulS_y, Vec2.neg_x, Vec2.neg_y] <;>
    field_simp <;> ring

end Accumulators

/-! ## Evaluation of the concrete bodies -/

theorem ratSqrt_25 : ratSqrt 25 = 5 := by
  norm_num [ratSqrt, natRoot]

theorem ratSqrt_1 : ratSqrt 1 = 1 := by
  norm_num [ratSqrt, natRoot]

theorem exAB_dist : dot (exA.position - exB.position) (exA.position - exB.position) = 25 := by
  norm_num [exA, exB, Physical.position, dot]

theorem exAB_normal : normalize ratSqrt (exA.position - exB.position) = ⟨3 / 5, 4 / 5⟩ := by
  unfold Vec2.normalize
  rw [exAB_dist, ratSqrt_25]
  ext <;> norm_num [exA, exB, Physical.position]

theorem exAB_speed :
    dot (exA.velocity - exB.velocity) (normalize ratSqrt (exA.position - exB.position)) = -10 := by
  rw [exAB_normal]
  norm_num [exA, exB, Physical.velocity, dot]

theorem normalize_3_4 : normalize ratSqrt (⟨3, 4⟩ : Vec2 ℚ) = ⟨3 / 5, 4 / 5⟩ := by
  have hd : dot (⟨3, 4⟩ : Vec2 ℚ) ⟨3, 4⟩ = 25 := by norm_num [dot]
  unfold Vec2.normalize
  rw [hd, ratSqrt_25]
  ext <;> norm_num

theorem exAB_diff : exA.position - exB.position = ⟨3, 4⟩ := by
  ext <;> norm_num [exA, exB, Physical.position]

theorem exCD_diff : exC.position - exD.position = ⟨3, 4⟩ := by
  ext <;> norm_num [exC, exD, Physical.position]

theorem exPB_diff : exP.position - exB.position = ⟨3, 4⟩ := by
  ext <;> norm_num [exP, exB, Physical.position]

/-! ## Claims -/

section Claims

variable {F : Type} [LinearOrderedField F]

/-- C1. `a.checkCollision(b)` returns true exactly when the squared distance
between the two positions is at most `(a.radius + b.radius)^2`, and false
exactly when it is larger.  In particular, with `δ` the distance (`δ ≥ 0`,
`δ * δ` the squared distance): bodies that exactly touch (`δ` equal to the sum
of the radii) collide, and bodies further apart than the size of that sum do
not. -/
theorem checkCollision_ret_iff (sqrt : F → F) (a b : Physical F) :
    ((a.checkCollision sqrt b).ret = true ↔
        dot (a.position - b.position) (a.position - b.position)
          ≤ (a.radius + b.radius) ^ 2) ∧
    ((a.checkCollision sqrt b).ret = false ↔
        (a.radius + b.radius) ^ 2
          < dot (a.position - b.position) (a.position - b.position)) ∧
    (∀ δ : F, δ * δ = dot (a.position - b.position) (a.position - b.position) →
        δ = a.radius + b.radius → (a.checkCollision sqrt b).ret = true) ∧
    (∀ δ : F, 0 ≤ δ →
        δ * δ = dot (a.position - b.position) (a.position - b.position) →
        |a.radius + b.radius| < δ → (a.checkCollision sqrt b).ret = false) := by
  have key : (a.checkCollision sqrt b).ret = true ↔
      dot (a.position - b.position) (a.position - b.position)
        ≤ (a.radius + b.radius) ^ 2 := by
    rw [pow_two]
    by_cases h : dot (a.position - b.position) (a.position - b.position)
        > (a.radius + b.radius) * (a.radius + b.radius)
    · rw [checkCollision_far sqrt a b h]
      simpa using h
    · by_cases hs : dot (a.velocity - b.velocity)
          (normalize sqrt (a.position - b.position)) > 0
      · rw [checkCollision_separating sqrt a b h hs]
        simpa using h
      · rw [checkCollision_hit sqrt a b h hs]
        simpa using h
  have keyF : (a.checkCollision sqrt b).ret = false ↔
      (a.radius + b.radius) ^ 2
        < dot (a.position - b.position) (a.position - b.position) := by
    rw [← not_le, ← key]
    simp
  refine ⟨key, keyF, ?_, ?_⟩
  · intro δ hδ hr
    rw [key, ← hδ, hr, pow_two]
  · intro δ h0 hδ hr
    rw [keyF, ← hδ, ← sq_abs (a.radius + b.radius), pow_two]
    exact mul_self_lt_mul_self (abs_nonneg _) hr

/-- C1 at concrete bodies: a touching pair (distance 5, radii 3 and 2) and an
overlapping pair collide, a pair at distance 10 with radii 2 and 3 does not. -/
theorem checkCollision_ret_iff_witness :
    (exA.checkCollision ratSqrt exB).ret = true ∧
    (exA.checkCollision ratSqrt exE).ret = true ∧
    (exB.checkCollision ratSqrt exE).ret = false :=
  ⟨(checkCollision_ret_iff ratSqrt exA exB).2.2.1 5
      (by norm_num [exA, exB, Physical.position, dot])
      (by norm_num [exA, exB, Physical.radius]),
   (checkCollision_ret_iff ratSqrt exA exE).1.mpr
      (by norm_num [exA, exE, Physical.position, Physical.radius, dot]),
   (checkCollision_ret_iff ratSqrt exB exE).2.2.2 10 (by norm_num)
      (by norm_num [exB, exE, Physical.position, dot])
      (by norm_num [exB, exE, Physical.radius, abs_lt])⟩

/-- C2. For bodies with positive masses and distinct positions that are within
summed-radius range and not separating (`s ≤ 0`, where `s` is the relative
velocity along `n = normalize(a.position - b.position)`), `a.checkCollision(b)`
returns true, adds `j * n` to the accumulator of `a` and adds `-j * n` to the
accumulator of `b`, with `j = -(1 + 0.95) * s / (1 / a.mass + 1 / b.mass)`. -/
theorem checkCollision_adds_impulse (sqrt : F → F) (a b : Physical F)
    (_hma : 0 < a.mass) (_hmb : 0 < b.mass) (_hpos : a.position ≠ b.position)
    (hrange : dot (a.position - b.position) (a.position - b.position)
        ≤ (a.radius + b.radius) ^ 2)
    (hs : dot (a.velocity - b.velocity) (normalize sqrt (a.position - b.position)) ≤ 0) :
    (a.checkCollision sqrt b).ret = true ∧
    (a.checkCollision sqrt b).self.impulse =
      a.impulse + sMul
        (-(1 + 95 / 100)
          * dot (a.velocity - b.velocity) (normalize sqrt (a.position - b.position))
          / (1 / a.mass + 1 / b.mass))
        (normalize sqrt (a.position - b.position)) ∧
    (a.checkCollision sqrt b).other.impulse =
      b.impulse + sMul
        (-(-(1 + 95 / 100)
          * dot (a.velocity - b.velocity) (normalize sqrt (a.position - b.position))
          / (1 / a.mass + 1 / b.mass)))
        (normalize sqrt (a.position - b.position)) := by
  have h : ¬ dot (a.position - b.position) (a.position - b.position)
      > (a.radius + b.radius) * (a.radius + b.radius) := by
    rw [pow_two] at hrange
    exact not_lt.mpr hrange
  rw [checkCollision_hit sqrt a b h (not_lt.mpr hs)]
  refine ⟨rfl, rfl, ?_⟩
  simp only [Physical.impulse, Physical.addImpulse, Physical.imass, Physical.mass]
  ext <;> simp

/-- C2 at the head-on pair `exA`, `exB`: impact speed `-10`, `j = 39/2`, so the
accumulators receive `(11.7, 15.6)` and its opposite. -/
theorem checkCollision_adds_impulse_witness :
    (exA.checkCollision ratSqrt exB).ret = true ∧
    (exA.checkCollision ratSqrt exB).self.impulse = ⟨117 / 10, 78 / 5⟩ ∧
    (exA.checkCollision ratSqrt exB).other.impulse = ⟨-(117 / 10), -(78 / 5)⟩ := by
  have h := checkCollision_adds_impulse ratSqrt exA exB
    (by norm_num [exA, Physical.mass]) (by norm_num [exB, Physical.mass])
    (by simp [exA, exB, Physical.position])
    (by rw [exAB_dist]; norm_num [exA, exB, Physical.radius])
    (by rw [exAB_speed]; norm_num)
  rw [exAB_speed, exAB_normal] at h
  refine ⟨h.1, h.2.1.trans ?_, h.2.2.trans ?_⟩ <;>
    ext <;> norm_num [exA, exB, Physical.impulse, Physical.mass]

/-- C3. For bodies within summed-radius range that are already moving apart
(impact speed `> 0`), `a.checkCollision(b)` returns true and both impulse
accumulators are exactly what they were. -/
theorem checkCollision_separating_no_impulse (sqrt : F → F) (a b : Physical F)
    (hrange : dot (a.position - b.position) (a.position - b.position)
        ≤ (a.radius + b.radius) ^ 2)
    (hs : 0 < dot (a.velocity - b.velocity) (normalize sqrt (a.position - b.position))) :
    (a.checkCollision sqrt b).ret = true ∧
    (a.checkCollision sqrt b).self.impulse = a.impulse ∧
    (a.checkCollision sqrt b).other.impulse = b.impulse := by
  have h : ¬ dot (a.position - b.position) (a.position - b.position)
      > (a.radius + b.radius) * (a.radius + b.radius) := by
    rw [pow_two] at hrange
    exact not_lt.mpr hrange
  rw [checkCollision_separating sqrt a b h hs]
  exact ⟨rfl, rfl, rfl⟩

/-- C3 at the touching pair `exC`, `exD`, which move apart at speed 5: the check
returns true and both accumulators stay empty. -/
theorem checkCollision_separating_no_impulse_witness :
    (exC.checkCollision ratSqrt exD).ret = true ∧
    (exC.checkCollision ratSqrt exD).self.impulse = 0 ∧
    (exC.checkCollision ratSqrt exD).other.impulse = 0 :=
  checkCollision_separating_no_impulse ratSqrt exC exD
    (by rw [exCD_diff]; norm_num [exC, exD, Physical.radius, dot])
    (by rw [exCD_diff, normalize_3_4]; norm_num [exC, exD, Physical.velocity, dot])

/-- C4. For bodies with positive masses, distinct positions and empty
accumulators that are in range and approaching (`s ≤ 0` along the normal `n`),
with the square root exact at the squared distance: after `a.checkCollision(b)`
and after each body applies its accumulated impulse the way `step()` does, the
relative velocity along `n` is `-0.95 * s`.  If moreover the masses are equal
and the bodies meet head-on at equal opposite speed `v` (velocities `-v * n` and
`v * n`), each velocity becomes `-0.95` times what it was. -/
theorem checkCollision_restitution (sqrt : F → F) (a b : Physical F)
    (hma : 0 < a.mass) (hmb : 0 < b.mass) (hpos : a.position ≠ b.position)
    (hia : a.impulse = 0) (hib : b.impulse = 0)
    (hsq : sqrt (dot (a.position - b.position) (a.position - b.position))
        * sqrt (dot (a.position - b.position) (a.position - b.position))
        = dot (a.position - b.position) (a.position - b.position))
    (hrange : dot (a.position - b.position) (a.position - b.position)
        ≤ (a.radius + b.radius) ^ 2)
    (hs : dot (a.velocity - b.velocity) (normalize sqrt (a.position - b.position)) ≤ 0) :
    dot ((a.checkCollision sqrt b).self.applyImpulse.velocity
          - (a.checkCollision sqrt b).other.applyImpulse.velocity)
        (normalize sqrt (a.position - b.position))
      = -(95 / 100)
          * dot (a.velocity - b.velocity) (normalize sqrt (a.position - b.position)) ∧
    (a.mass = b.mass → ∀ v : F,
      a.velocity = sMul (-v) (normalize sqrt (a.position - b.position)) →
      b.velocity = sMul v (normalize sqrt (a.position - b.position)) →
      (a.checkCollision sqrt b).self.applyImpulse.velocity
          = sMul (-(95 / 100)) a.velocity ∧
      (a.checkCollision sqrt b).other.applyImpulse.velocity
          = sMul (-(95 / 100)) b.velocity) := by
  have h : ¬ dot (a.position - b.position) (a.position - b.position)
      > (a.radius + b.radius) * (a.radius + b.radius) := by
    rw [pow_two] at hrange
    exact not_lt.mpr hrange
  have hn := dot_normalize_self sqrt _ (vec_sub_ne_zero _ _ hpos) hsq
  rw [checkCollision_hit sqrt a b h (not_lt.mpr hs)]
  simp only [Physical.impulse, Physical.mass] at hia hib hma hmb
  simp only [Physical.imass]
  have hM : 1 / a.m_mass + 1 / b.m_mass ≠ 0 := by
    have h1 : 0 < 1 / a.m_mass := one_div_pos.mpr hma
    have h2 : 0 < 1 / b.m_mass := one_div_pos.mpr hmb
    exact ne_of_gt (add_pos h1 h2)
  generalize hndef : normalize sqrt (a.position - b.position) = n at hn hs ⊢
  generalize hsdef : dot (a.velocity - b.velocity) n = s at hs ⊢
  generalize hjdef : -(1 + 95 / 100) * s / (1 / a.m_mass + 1 / b.m_mass) = j
  have hj : j * (1 / a.m_mass + 1 / b.m_mass) = -(1 + 95 / 100) * s := by
    rw [← hjdef]
    field_simp
    ring
  simp only [dot, Vec2.sub_x, Vec2.sub_y] at hn hsdef
  constructor
  · simp only [Physical.applyImpulse, Physical.addImpulse, Physical.velocity, Physical.imass, hia, hib, dot,
      Vec2.sub_x, Vec2.sub_y, Vec2.add_x, Vec2.add_y, Vec2.mulS_x, Vec2.mulS_y, Vec2.sMul_x,
      Vec2.sMul_y, Vec2.neg_x, Vec2.neg_y, Vec2.zero_x, Vec2.zero_y]
    simp only [Physical.velocity] at hsdef
    linear_combination hj + j * (1 / a.m_mass + 1 / b.m_mass) * hn + hsdef
  · intro hm v hva hvb
    simp only [Physical.velocity] at hva hvb hsdef
    have hab : 1 / b.m_mass = 1 / a.m_mass := by simp only [Physical.mass] at hm; rw [hm]
    have hax : a.m_vel.x = -v * n.x := by rw [hva]; rfl
    have hay : a.m_vel.y = -v * n.y := by rw [hva]; rfl
    have hbx : b.m_vel.x = v * n.x := by rw [hvb]; rfl
    have hby : b.m_vel.y = v * n.y := by rw [hvb]; rfl
    have hs2 : s = -2 * v := by
      rw [← hsdef, hax, hay, hbx, hby]
      linear_combination (-2 * v) * hn
    have hj2 : j * (1 / a.m_mass) = (1 + 95 / 100) * v := by
      rw [hab, hs2] at hj
      linear_combination hj / 2
    constructor
    · ext
      · simp only [Physical.applyImpulse, Physical.addImpulse, Physical.velocity, Physical.imass, hia,
          Vec2.add_x, Vec2.mulS_x, Vec2.sMul_x, Vec2.zero_x, hax]
        linear_combination n.x * hj2
      · simp only [Physical.applyImpulse, Physical.addImpulse, Physical.velocity, Physical.imass, hia,
          Vec2.add_y, Vec2.mulS_y, Vec2.sMul_y, Vec2.zero_y, hay]
        linear_combination n.y * hj2
    · ext
      · simp only [Physical.applyImpulse, Physical.addImpulse, Physical.velocity, Physical.imass, hib,
          Vec2.add_x, Vec2.mulS_x, Vec2.sMul_x, Vec2.zero_x, Vec2.neg_x, hbx, hab]
        linear_combination (-n.x) * hj2
      · simp only [Physical.applyImpulse, Physical.addImpulse, Physical.velocity, Physical.imass, hib,
          Vec2.add_y, Vec2.mulS_y, Vec2.sMul_y, Vec2.zero_y, Vec2.neg_y, hby, hab]
        linear_combination (-n.y) * hj2

/-- C4 at the equal-mass head-on pair `exA`, `exB` (speed 5 each): the approach
speed 10 becomes the separation speed 9.5 and each velocity is multiplied by
`-0.95`. -/
theorem checkCollision_restitution_witness :
    dot ((exA.checkCollision ratSqrt exB).self.applyImpulse.velocity
          - (exA.checkCollision ratSqrt exB).other.applyImpulse.velocity)
        (⟨3 / 5, 4 / 5⟩ : Vec2 ℚ) = 19 / 2 ∧
    (exA.checkCollision ratSqrt exB).self.applyImpulse.velocity = ⟨57 / 20, 19 / 5⟩ ∧
    (exA.checkCollision ratSqrt exB).other.applyImpulse.velocity
      = ⟨-(57 / 20), -(19 / 5)⟩ := by
  have hs : dot (exA.velocity - exB.velocity) (⟨3 / 5, 4 / 5⟩ : Vec2 ℚ) = -10 := by
    norm_num [exA, exB, Physical.velocity, dot]
  have h := checkCollision_restitution ratSqrt exA exB
    (by norm_num [exA, Physical.mass]) (by norm_num [exB, Physical.mass])
    (by simp [exA, exB, Physical.position]) rfl rfl
    (by rw [exAB_diff]; norm_num [dot, ratSqrt_25])
    (by rw [exAB_diff]; norm_num [exA, exB, Physical.radius, dot])
    (by rw [exAB_diff, normalize_3_4, hs]; norm_num)
  rw [exAB_diff, normalize_3_4, hs] at h
  have h2 := h.2 rfl 5
    (by ext <;> norm_num [exA, Physical.velocity])
    (by ext <;> norm_num [exB, Physical.velocity])
  refine ⟨h.1.trans (by norm_num), h2.1.trans ?_, h2.2.trans ?_⟩ <;>
    ext <;> norm_num [exA, exB, Physical.velocity]

/-- C5 (as amended). For bodies with positive masses, `a.checkCollision(b)`
leaves the sum of the two impulse accumulators unchanged, so that once each
body applies its accumulated impulse (`velocity += impulse * inverse mass`) the
total momentum equals its value before the check plus the sum of the impulses
that were already in the two accumulators; when that sum was zero (for instance
both accumulators empty) the total momentum is the one before the collision. -/
theorem checkCollision_momentum (sqrt : F → F) (a b : Physical F)
    (hma : 0 < a.mass) (hmb : 0 < b.mass) :
    (a.checkCollision sqrt b).self.impulse + (a.checkCollision sqrt b).other.impulse
        = a.impulse + b.impulse ∧
    momentum (a.checkCollision sqrt b).self.applyImpulse
        (a.checkCollision sqrt b).other.applyImpulse
        = momentum a b + (a.impulse + b.impulse) ∧
    (a.impulse + b.impulse = 0 →
      momentum (a.checkCollision sqrt b).self.applyImpulse
        (a.checkCollision sqrt b).other.applyImpulse = momentum a b) := by
  simp only [Physical.mass] at hma hmb
  have hmom := momentum_after_check sqrt a b (ne_of_gt hma) (ne_of_gt hmb)
  obtain ⟨δ, hself, hother⟩ := checkCollision_delta sqrt a b
  have hsum : (a.checkCollision sqrt b).self.impulse + (a.checkCollision sqrt b).other.impulse
      = a.impulse + b.impulse := by
    rw [hself, hother]
    ext <;> simp [Physical.addImpulse, Physical.impulse] <;> ring
  refine ⟨hsum, hmom, ?_⟩
  intro h0
  rw [hmom, h0]
  ext <;> simp

/-- C5 counterexample. With the impulse `(1, 0)` already accumulated on the
first of two colliding bodies of positive mass, the total momentum after the
check and the impulse application is `(1, 0)`, not the `(0, 0)` it was before
the collision. -/
theorem checkCollision_momentum_counterexample :
    0 < exP.mass ∧ 0 < exB.mass ∧
    (exP.checkCollision ratSqrt exB).ret = true ∧
    momentum exP exB = ⟨0, 0⟩ ∧
    momentum (exP.checkCollision ratSqrt exB).self.applyImpulse
        (exP.checkCollision ratSqrt exB).other.applyImpulse = ⟨1, 0⟩ ∧
    momentum (exP.checkCollision ratSqrt exB).self.applyImpulse
        (exP.checkCollision ratSqrt exB).other.applyImpulse ≠ momentum exP exB := by
  have hm0 : momentum exP exB = ⟨0, 0⟩ := by
    ext <;> norm_num [momentum, exP, exB, Physical.mass, Physical.velocity]
  have hm1 : momentum (exP.checkCollision ratSqrt exB).self.applyImpulse
      (exP.checkCollision ratSqrt exB).other.applyImpulse = ⟨1, 0⟩ := by
    rw [momentum_after_check ratSqrt exP exB (by norm_num [exP]) (by norm_num [exB]), hm0]
    ext <;> norm_num [exP, exB, Physical.impulse]
  have hret : (exP.checkCollision ratSqrt exB).ret = true := by
    have h : ¬ dot (exP.position - exB.position) (exP.position - exB.position)
        > (exP.radius + exB.radius) * (exP.radius + exB.radius) := by
      rw [exPB_diff]; norm_num [exP, exB, Physical.radius, dot]
    have hs : ¬ dot (exP.velocity - exB.velocity)
        (normalize ratSqrt (exP.position - exB.position)) > 0 := by
      rw [exPB_diff, normalize_3_4]; norm_num [exP, exB, Physical.velocity, dot]
    rw [checkCollision_hit ratSqrt exP exB h hs]
  refine ⟨by norm_num [exP, Physical.mass], by norm_num [exB, Physical.mass], hret, hm0, hm1, ?_⟩
  rw [hm1, hm0]
  intro h
  have hx := congrArg Vec2.x h
  norm_num at hx

/-- C5 (as amended) at concrete bodies: with `(1, 0)` already accumulated the
momentum moves by exactly that amount, with empty accumulators it is conserved. -/
theorem checkCollision_momentum_witness :
    (exP.checkCollision ratSqrt exB).self.impulse
        + (exP.checkCollision ratSqrt exB).other.impulse = exP.impulse + exB.impulse ∧
    momentum (exP.checkCollision ratSqrt exB).self.applyImpulse
        (exP.checkCollision ratSqrt exB).other.applyImpulse
      = momentum exP exB + (exP.impulse + exB.impulse) ∧
    momentum (exA.checkCollision ratSqrt exB).self.applyImpulse
        (exA.checkCollision ratSqrt exB).other.applyImpulse = momentum exA exB :=
  ⟨(checkCollision_momentum ratSqrt exP exB
      (by norm_num [exP, Physical.mass]) (by norm_num [exB, Physical.mass])).1,
   (checkCollision_momentum ratSqrt exP exB
      (by norm_num [exP, Physical.mass]) (by norm_num [exB, Physical.mass])).2.1,
   (checkCollision_momentum ratSqrt exA exB
      (by norm_num [exA, Physical.mass]) (by norm_num [exB, Physical.mass])).2.2
      (by ext <;> norm_num [exA, exB, Physical.impulse])⟩

/-- C6. Whatever it returns, `a.checkCollision(b)` leaves position, velocity,
mass and radius of both bodies unchanged: of the five members of each body only
the impulse accumulator can differ afterwards. -/
theorem checkCollision_frame (sqrt : F → F) (a b : Physical F) :
    ((a.checkCollision sqrt b).self.position = a.position ∧
     (a.checkCollision sqrt b).self.velocity = a.velocity ∧
     (a.checkCollision sqrt b).self.mass = a.mass ∧
     (a.checkCollision sqrt b).self.radius = a.radius) ∧
    ((a.checkCollision sqrt b).other.position = b.position ∧
     (a.checkCollision sqrt b).other.velocity = b.velocity ∧
     (a.checkCollision sqrt b).other.mass = b.mass ∧
     (a.checkCollision sqrt b).other.radius = b.radius) ∧
    (a.checkCollision sqrt b).self = { a with m_imp := (a.checkCollision sqrt b).self.m_imp } ∧
    (a.checkCollision sqrt b).other = { b with m_imp := (a.checkCollision sqrt b).other.m_imp } := by
  by_cases h : dot (a.position - b.position) (a.position - b.position)
      > (a.radius + b.radius) * (a.radius + b.radius)
  · rw [checkCollision_far sqrt a b h]
    exact ⟨⟨rfl, rfl, rfl, rfl⟩, ⟨rfl, rfl, rfl, rfl⟩, rfl, rfl⟩
  · by_cases hs : dot (a.velocity - b.velocity)
        (normalize sqrt (a.position - b.position)) > 0
    · rw [checkCollision_separating sqrt a b h hs]
      exact ⟨⟨rfl, rfl, rfl, rfl⟩, ⟨rfl, rfl, rfl, rfl⟩, rfl, rfl⟩
    · rw [checkCollision_hit sqrt a b h hs]
      exact ⟨⟨rfl, rfl, rfl, rfl⟩, ⟨rfl, rfl, rfl, rfl⟩, rfl, rfl⟩

/-- C7. Checks made between two steps are order-independent: for three bodies
at pairwise distinct positions, `a.checkCollision(b)` followed by
`a.checkCollision(c)` gives the same two return values and the same final
states (hence the same impulse accumulators) of `a`, `b` and `c` as
`a.checkCollision(c)` followed by `a.checkCollision(b)`. -/
theorem checkCollision_order_independent (sqrt : F → F) (a b c : Physical F)
    (_hab : a.position ≠ b.position) (_hac : a.position ≠ c.position)
    (_hbc : b.position ≠ c.position) :
    (checkTwo sqrt a b c).1 = (checkTwo sqrt a c b).2.1 ∧
    (checkTwo sqrt a b c).2.1 = (checkTwo sqrt a c b).1 ∧
    (checkTwo sqrt a b c).2.2.1 = (checkTwo sqrt a c b).2.2.1 ∧
    (checkTwo sqrt a b c).2.2.2.1 = (checkTwo sqrt a c b).2.2.2.2 ∧
    (checkTwo sqrt a b c).2.2.2.2 = (checkTwo sqrt a c b).2.2.2.1 := by
  obtain ⟨δb, hb, -⟩ := checkCollision_delta sqrt a b
  obtain ⟨δc, hc, -⟩ := checkCollision_delta sqrt a c
  simp only [checkTwo]
  have e1 : (a.checkCollision sqrt b).self.checkCollision sqrt c
      = ⟨(a.checkCollision sqrt c).ret, (a.checkCollision sqrt c).self.addImpulse δb,
         (a.checkCollision sqrt c).other⟩ := by
    rw [hb, checkCollision_addImpulse]
  have e2 : (a.checkCollision sqrt c).self.checkCollision sqrt b
      = ⟨(a.checkCollision sqrt b).ret, (a.checkCollision sqrt b).self.addImpulse δc,
         (a.checkCollision sqrt b).other⟩ := by
    rw [hc, checkCollision_addImpulse]
  rw [e1, e2]
  refine ⟨rfl, rfl, ?_, rfl, rfl⟩
  rw [hb, hc]
  exact addImpulse_comm _ _ _

/-- C7 at three concrete bodies at pairwise distinct positions, the receiver
colliding with both of the others. -/
theorem checkCollision_order_independent_witness :
    (checkTwo ratSqrt exA exB exE).1 = (checkTwo ratSqrt exA exE exB).2.1 ∧
    (checkTwo ratSqrt exA exB exE).2.1 = (checkTwo ratSqrt exA exE exB).1 ∧
    (checkTwo ratSqrt exA exB exE).2.2.1 = (checkTwo ratSqrt exA exE exB).2.2.1 ∧
    (checkTwo ratSqrt exA exB exE).2.2.2.1 = (checkTwo ratSqrt exA exE exB).2.2.2.2 ∧
    (checkTwo ratSqrt exA exB exE).2.2.2.2 = (checkTwo ratSqrt exA exE exB).2.2.2.1 :=
  checkCollision_order_independent ratSqrt exA exB exE
    (by simp [exA, exB, Physical.position])
    (by simp [exA, exE, Physical.position])
    (by simp [exB, exE, Physical.position])

/-- The integration phase of `step()` as one classical RK4 step from the
velocity it starts with; mass, radius and accumulator are passed through. -/
theorem integrate_rk4 (sqrt : F → F) (q : Physical F) :
    ((q.integrate sqrt).position, (q.integrate sqrt).velocity)
      = rk4Step (fun v => acceleration sqrt v (1 / 10) q.mass) (1 / 60)
          q.position q.velocity ∧
    (q.integrate sqrt).impulse = q.impulse ∧
    (q.integrate sqrt).mass = q.mass ∧
    (q.integrate sqrt).radius = q.radius := by
  refine ⟨?_, rfl, rfl, rfl⟩
  have hz : ∀ v : Vec2 F, v + (0 : Vec2 F).mulS 0 = v := by
    intro v; ext <;> simp
  have hh : ∀ v k : Vec2 F,
      v + k.mulS (Physical.TIMESTEP * (1 / 2)) = v + sMul ((1 / 60 : F) / 2) k := by
    intro v k; ext <;> simp [Physical.TIMESTEP] <;> ring
  have hf : ∀ v k : Vec2 F, v + k.mulS Physical.TIMESTEP = v + sMul (1 / 60 : F) k := by
    intro v k; ext <;> simp [Physical.TIMESTEP] <;> ring
  cases q
  simp only [Physical.integrate, evaluate, Derivate.zero, hz, hh, hf, rk4Step,
    Physical.position, Physical.velocity, Physical.mass, Prod.mk.injEq]
  constructor <;> ext <;>
    simp only [Vec2.add_x, Vec2.add_y, Vec2.sMul_x, Vec2.sMul_y, Vec2.mulS_x, Vec2.mulS_y,
      Physical.TIMESTEP] <;> ring

/-- C8. For a body with positive mass, `step()` first adds `impulse * (1/mass)`
to the velocity and clears the accumulator: afterwards the accumulator is the
zero vector, and the whole resulting state (position and velocity included) is
the one obtained by stepping a body with velocity `v + impulse / mass` and an
empty accumulator.  Impulses added with `addImpulse` before the step contribute
through their sum.  Spelled out: `step()` is the integration phase run on the
body whose velocity is `v + impulse * (1/mass)` and whose accumulator is zero,
so the new position and velocity are those of one RK4 step started from that
velocity, and mass and radius are unchanged. -/
theorem step_applies_impulse (sqrt : F → F) (p : Physical F) (_hm : 0 < p.mass) :
    (p.step sqrt).impulse = 0 ∧
    p.step sqrt =
      ({ p with m_vel := ⟨p.velocity.x + p.impulse.x / p.mass,
                          p.velocity.y + p.impulse.y / p.mass⟩,
                m_imp := 0 } : Physical F).step sqrt ∧
    (∀ l : List (Vec2 F),
      (l.foldl Physical.addImpulse p).step sqrt =
        ({ p with m_imp := p.impulse + impulseSum l } : Physical F).step sqrt) ∧
    p.applyImpulse
      = ⟨p.position, p.velocity + p.impulse.mulS (1 / p.mass), 0, p.mass, p.radius⟩ ∧
    p.step sqrt
      = Physical.integrate sqrt
          ⟨p.position, p.velocity + p.impulse.mulS (1 / p.mass), 0, p.mass, p.radius⟩ ∧
    ((p.step sqrt).position, (p.step sqrt).velocity)
      = rk4Step (fun v => acceleration sqrt v (1 / 10) p.mass) (1 / 60)
          p.position (p.velocity + p.impulse.mulS (1 / p.mass)) ∧
    (p.step sqrt).mass = p.mass ∧
    (p.step sqrt).radius = p.radius := by
  have hrk := (integrate_rk4 sqrt p.applyImpulse).1
  refine ⟨rfl, ?_, ?_, rfl, rfl, hrk, rfl, rfl⟩
  · simp only [Physical.step, applyImpulse_preapplied]
  · intro l
    have key : ∀ (l : List (Vec2 F)) (q : Physical F),
        l.foldl Physical.addImpulse q = { q with m_imp := q.m_imp + impulseSum l } := by
      intro l
      induction l with
      | nil =>
        intro q
        cases q
        simp only [List.foldl_nil, impulseSum, Physical.mk.injEq, true_and, and_true]
        ext <;> simp
      | cons i rest ih =>
        intro q
        rw [List.foldl_cons, ih]
        cases q
        simp only [Physical.addImpulse, impulseSum, Physical.mk.injEq, true_and, and_true]
        ext <;> simp [add_assoc]
    rw [key]
    rfl

/-- C8 at the body `exP` (velocity `(-3, -4)`, accumulated impulse `(1, 0)`,
mass 2): the impulse application gives the velocity `(-2.5, -4)` and an empty
accumulator, stepping `exP` is integrating that body, and it is stepping the
same body with velocity `(-2.5, -4)` and an empty accumulator. -/
theorem step_applies_impulse_witness :
    (exP.step ratSqrt).impulse = 0 ∧
    exP.step ratSqrt
      = (⟨⟨3, 4⟩, ⟨-(5 / 2), -4⟩, 0, 2, 3⟩ : Physical ℚ).step ratSqrt ∧
    exP.applyImpulse = ⟨⟨3, 4⟩, ⟨-(5 / 2), -4⟩, 0, 2, 3⟩ ∧
    exP.step ratSqrt
      = Physical.integrate ratSqrt ⟨⟨3, 4⟩, ⟨-(5 / 2), -4⟩, 0, 2, 3⟩ ∧
    (exP.step ratSqrt).mass = 2 := by
  have h := step_applies_impulse ratSqrt exP (by norm_num [exP, Physical.mass])
  have hv : (⟨exP.position, exP.velocity + exP.impulse.mulS (1 / exP.mass), 0, exP.mass,
      exP.radius⟩ : Physical ℚ) = ⟨⟨3, 4⟩, ⟨-(5 / 2), -4⟩, 0, 2, 3⟩ := by
    simp only [exP, Physical.position, Physical.velocity, Physical.impulse, Physical.mass,
      Physical.radius, Physical.mk.injEq, true_and, and_true]
    ext <;> norm_num
  refine ⟨h.1, h.2.1.trans ?_, h.2.2.2.1.trans hv, ?_, h.2.2.2.2.2.2.1⟩
  · congr 1
    simp only [exP, Physical.velocity, Physical.impulse, Physical.mass, Physical.mk.injEq,
      true_and, and_true]
    ext <;> norm_num
  · rw [h.2.2.2.2.1, hv]

/-- C9. `step()` is one classical RK4 step of size `h = 1/60` for
`d(pos)/dt = vel`, `d(vel)/dt = acceleration(vel)`, started from the position
and from the velocity `v0` obtained by applying the accumulated impulse: the new
position and velocity are those of `rk4Step`. -/
theorem step_is_rk4 (sqrt : F → F) (p : Physical F) :
    p.applyImpulse.velocity = p.velocity + p.impulse.mulS (1 / p.mass) ∧
    ((p.step sqrt).position, (p.step sqrt).velocity)
      = rk4Step (fun v => acceleration sqrt v (1 / 10) p.mass) (1 / 60)
          p.position p.applyImpulse.velocity := by
  refine ⟨rfl, ?_⟩
  have hz : ∀ v : Vec2 F, v + (0 : Vec2 F).mulS 0 = v := by
    intro v; ext <;> simp
  have hh : ∀ v k : Vec2 F,
      v + k.mulS (Physical.TIMESTEP * (1 / 2)) = v + sMul ((1 / 60 : F) / 2) k := by
    intro v k; ext <;> simp [Physical.TIMESTEP] <;> ring
  have hf : ∀ v k : Vec2 F, v + k.mulS Physical.TIMESTEP = v + sMul (1 / 60 : F) k := by
    intro v k; ext <;> simp [Physical.TIMESTEP] <;> ring
  simp only [Physical.step, Physical.integrate, evaluate, Derivate.zero, hz, hh, hf, rk4Step,
    Physical.position, Physical.velocity, Physical.mass, Physical.applyImpulse, Prod.mk.injEq]
  constructor <;> ext <;>
    simp only [Vec2.add_x, Vec2.add_y, Vec2.sMul_x, Vec2.sMul_y, Vec2.mulS_x, Vec2.mulS_y,
      Physical.TIMESTEP] <;> ring

/-- C10 (as amended). For every stage velocity `vel ≠ 0` and mass `m ≥ 0`, with
the square root exact and non-negative at `|vel|^2`: the acceleration used at an
RK4 stage is `(0, -9.81) - normalize(vel) * 0.1 * |vel|^2 * m`, that is gravity
plus a drag term which is a non-positive multiple of `vel` (anti-parallel, dot
product with `vel` at most `0`) and whose magnitude is `0.1 * m * |vel|^2`
(the squared length of the drag term is the square of that non-negative
number). -/
theorem evaluate_acceleration (sqrt : F → F) (obj : Physical F) (dt : F) (d : Derivate F)
    (hv : obj.velocity + d.dvel.mulS dt ≠ 0) (hm : 0 ≤ obj.mass)
    (hsq : sqrt (dot (obj.velocity + d.dvel.mulS dt) (obj.velocity + d.dvel.mulS dt))
        * sqrt (dot (obj.velocity + d.dvel.mulS dt) (obj.velocity + d.dvel.mulS dt))
        = dot (obj.velocity + d.dvel.mulS dt) (obj.velocity + d.dvel.mulS dt))
    (hs0 : 0 ≤ sqrt (dot (obj.velocity + d.dvel.mulS dt) (obj.velocity + d.dvel.mulS dt))) :
    (evaluate sqrt obj dt d).dvel
      = (⟨0, -(981 / 100)⟩ : Vec2 F)
        - sMul (1 / 10 * dot (obj.velocity + d.dvel.mulS dt) (obj.velocity + d.dvel.mulS dt)
                * obj.mass)
            (normalize sqrt (obj.velocity + d.dvel.mulS dt)) ∧
    (∃ c : F, 0 ≤ c ∧
      (evaluate sqrt obj dt d).dvel - (⟨0, -(981 / 100)⟩ : Vec2 F)
        = sMul (-c) (obj.velocity + d.dvel.mulS dt)) ∧
    dot ((evaluate sqrt obj dt d).dvel - (⟨0, -(981 / 100)⟩ : Vec2 F))
        (obj.velocity + d.dvel.mulS dt) ≤ 0 ∧
    dot ((evaluate sqrt obj dt d).dvel - (⟨0, -(981 / 100)⟩ : Vec2 F))
        ((evaluate sqrt obj dt d).dvel - (⟨0, -(981 / 100)⟩ : Vec2 F))
      = (1 / 10 * obj.mass
          * dot (obj.velocity + d.dvel.mulS dt) (obj.velocity + d.dvel.mulS dt)) ^ 2 ∧
    0 ≤ 1 / 10 * obj.mass
          * dot (obj.velocity + d.dvel.mulS dt) (obj.velocity + d.dvel.mulS dt) := by
  have he : (evaluate sqrt obj dt d).dvel
      = acceleration sqrt (obj.velocity + d.dvel.mulS dt) (1 / 10) obj.mass := rfl
  rw [he]
  generalize obj.velocity + d.dvel.mulS dt = vel at hv hsq hs0 ⊢
  generalize obj.mass = m at hm ⊢
  have hn := dot_normalize_self sqrt vel hv hsq
  have hdd := dot_self_pos vel hv
  have hk : 0 ≤ 1 / sqrt (dot vel vel) := one_div_nonneg.mpr hs0
  have hnv : normalize sqrt vel = vel.mulS (1 / sqrt (dot vel vel)) := rfl
  have hdrag : acceleration sqrt vel (1 / 10) m - (⟨0, -(981 / 100)⟩ : Vec2 F)
      = sMul (-(1 / 10 * dot vel vel * m)) (normalize sqrt vel) := by
    ext <;> simp only [acceleration, Vec2.sub_x, Vec2.sub_y, Vec2.mulS_x, Vec2.mulS_y,
      Vec2.sMul_x, Vec2.sMul_y] <;> ring
  have hc : 0 ≤ 1 / 10 * dot vel vel * m * (1 / sqrt (dot vel vel)) :=
    mul_nonneg (mul_nonneg (mul_nonneg (by norm_num) hdd.le) hm) hk
  have hpar : acceleration sqrt vel (1 / 10) m - (⟨0, -(981 / 100)⟩ : Vec2 F)
      = sMul (-(1 / 10 * dot vel vel * m * (1 / sqrt (dot vel vel)))) vel := by
    rw [hdrag, hnv]
    ext <;> simp only [Vec2.mulS_x, Vec2.mulS_y, Vec2.sMul_x, Vec2.sMul_y] <;> ring
  refine ⟨?_, ⟨_, hc, hpar⟩, ?_, ?_, ?_⟩
  · ext <;> simp only [acceleration, Vec2.sub_x, Vec2.sub_y, Vec2.mulS_x, Vec2.mulS_y,
      Vec2.sMul_x, Vec2.sMul_y] <;> ring
  · rw [hpar]
    have e : dot (sMul (-(1 / 10 * dot vel vel * m * (1 / sqrt (dot vel vel)))) vel) vel
        = -((1 / 10 * dot vel vel * m * (1 / sqrt (dot vel vel))) * dot vel vel) := by
      simp only [dot, Vec2.sMul_x, Vec2.sMul_y]
      ring
    rw [e]
    exact neg_nonpos.mpr (mul_nonneg hc hdd.le)
  · rw [hdrag]
    have e : dot (sMul (-(1 / 10 * dot vel vel * m)) (normalize sqrt vel))
          (sMul (-(1 / 10 * dot vel vel * m)) (normalize sqrt vel))
        = (1 / 10 * m * dot vel vel) ^ 2
            * dot (normalize sqrt vel) (normalize sqrt vel) := by
      generalize normalize sqrt vel = n
      generalize dot vel vel = q
      simp only [dot, Vec2.sMul_x, Vec2.sMul_y]
      ring
    rw [e, hn, mul_one]
  · exact mul_nonneg (mul_nonneg (by norm_num) hm) hdd.le

/-- C10 counterexample. For the non-zero velocity `(1, 0)` and the mass `-1`
the acceleration of the first RK4 stage is `(0.1, -9.81)`: its drag term
`(0.1, 0)` points along the velocity, with a positive dot product. -/
theorem evaluate_acceleration_counterexample :
    exN.velocity + (Derivate.zero : Derivate ℚ).dvel.mulS 0 = ⟨1, 0⟩ ∧
    (evaluate ratSqrt exN 0 Derivate.zero).dvel = ⟨1 / 10, -(981 / 100)⟩ ∧
    ¬ dot ((evaluate ratSqrt exN 0 Derivate.zero).dvel - (⟨0, -(981 / 100)⟩ : Vec2 ℚ))
        (exN.velocity + (Derivate.zero : Derivate ℚ).dvel.mulS 0) ≤ 0 := by
  have hv : exN.velocity + (Derivate.zero : Derivate ℚ).dvel.mulS 0 = ⟨1, 0⟩ := by
    ext <;> norm_num [exN, Physical.velocity, Derivate.zero]
  have hn : normalize ratSqrt (⟨1, 0⟩ : Vec2 ℚ) = ⟨1, 0⟩ := by
    have hd : dot (⟨1, 0⟩ : Vec2 ℚ) ⟨1, 0⟩ = 1 := by norm_num [dot]
    unfold Vec2.normalize
    rw [hd, ratSqrt_1]
    ext <;> norm_num
  have he : (evaluate ratSqrt exN 0 Derivate.zero).dvel = ⟨1 / 10, -(981 / 100)⟩ := by
    simp only [evaluate, hv, acceleration, hn]
    ext <;> norm_num [exN, Physical.mass, dot]
  refine ⟨hv, he, ?_⟩
  rw [he, hv]
  norm_num [dot]

/-- C10 (as amended) at the stage velocity `(3, 4)` and mass 2: the acceleration
is `(-3, -13.81)`, its drag term `(-3, -4)` has length 5 `= 0.1 * 2 * 25` and
points against the velocity. -/
theorem evaluate_acceleration_witness :
    (evaluate ratSqrt exB 0 Derivate.zero).dvel = ⟨-3, -(1381 / 100)⟩ ∧
    dot ((evaluate ratSqrt exB 0 Derivate.zero).dvel - (⟨0, -(981 / 100)⟩ : Vec2 ℚ))
        (⟨3, 4⟩ : Vec2 ℚ) ≤ 0 ∧
    dot ((evaluate ratSqrt exB 0 Derivate.zero).dvel - (⟨0, -(981 / 100)⟩ : Vec2 ℚ))
        ((evaluate ratSqrt exB 0 Derivate.zero).dvel - (⟨0, -(981 / 100)⟩ : Vec2 ℚ))
      = 5 ^ 2 := by
  have hv : exB.velocity + (Derivate.zero : Derivate ℚ).dvel.mulS 0 = ⟨3, 4⟩ := by
    ext <;> norm_num [exB, Physical.velocity, Derivate.zero]
  have hd : dot (⟨3, 4⟩ : Vec2 ℚ) ⟨3, 4⟩ = 25 := by norm_num [dot]
  have h := evaluate_acceleration ratSqrt exB 0 Derivate.zero
    (by rw [hv]; intro h0; have hx := congrArg Vec2.x h0; norm_num at hx)
    (by norm_num [exB, Physical.mass])
    (by rw [hv, hd, ratSqrt_25]; norm_num)
    (by rw [hv, hd, ratSqrt_25]; norm_num)
  rw [hv, hd, normalize_3_4] at h
  refine ⟨h.1.trans ?_, h.2.2.1, h.2.2.2.1.trans ?_⟩
  · ext <;> norm_num [exB, Physical.mass]
  · norm_num [exB, Physical.mass]

/-- The accumulated impulse of a freshly constructed body is zero, so the first
vector its `step()` hands to `glm::normalize` is its zero velocity. -/
theorem stepNormalizeArgs_new (sqrt : F → F) (pos : Vec2 F) (mass radius : F) :
    ((Physical.new pos mass radius).stepNormalizeArgs sqrt).head? = some 0 := by
  simp only [Physical.stepNormalizeArgs, List.head?_cons, Option.some.injEq]
  ext <;> simp [evaluateVel, Physical.applyImpulse, Physical.new, Physical.velocity,
    Derivate.zero]

/-- The evaluation of `evaluate` exposes the normalised vector as `dpos`. -/
theorem evaluate_dpos (sqrt : F → F) (obj : Physical F) (dt : F) (d : Derivate F) :
    (evaluate sqrt obj dt d).dpos = evaluateVel obj dt d := rfl

/-- C11 at a body at rest. `Physical(pos, 1, 1)` has mass and radius `> 0`, yet
the first of the four vectors its `step()` passes to `glm::normalize` is the
zero vector, whose squared length, the argument of the square root that
`normalize` divides by, is `0`. -/
theorem step_normalizes_zero_at_rest :
    0 < (Physical.new (⟨0, 0⟩ : Vec2 ℚ) 1 1).mass ∧
    0 < (Physical.new (⟨0, 0⟩ : Vec2 ℚ) 1 1).radius ∧
    ((Physical.new (⟨0, 0⟩ : Vec2 ℚ) 1 1).stepNormalizeArgs ratSqrt).head? = some 0 ∧
    ¬ (∀ v ∈ (Physical.new (⟨0, 0⟩ : Vec2 ℚ) 1 1).stepNormalizeArgs ratSqrt, v ≠ 0) ∧
    dot (0 : Vec2 ℚ) 0 = 0 ∧ ratSqrt 0 = 0 := by
  have h := stepNormalizeArgs_new ratSqrt (⟨0, 0⟩ : Vec2 ℚ) 1 1
  refine ⟨by norm_num [Physical.new, Physical.mass],
    by norm_num [Physical.new, Physical.radius], h, ?_, by simp [dot],
    by simp [ratSqrt, natRoot]⟩
  intro hall
  exact hall 0 (List.mem_of_mem_head? h) rfl

/-- Mass and radius are the same after `checkCollision` as before, on both
bodies. -/
theorem checkCollision_mass_radius (sqrt : F → F) (a b : Physical F) :
    (a.checkCollision sqrt b).self.m_mass = a.m_mass ∧
    (a.checkCollision sqrt b).self.m_radius = a.m_radius ∧
    (a.checkCollision sqrt b).other.m_mass = b.m_mass ∧
    (a.checkCollision sqrt b).other.m_radius = b.m_radius := by
  obtain ⟨δ, hself, hother⟩ := checkCollision_delta sqrt a b
  rw [hself, hother]
  exact ⟨rfl, rfl, rfl, rfl⟩

/-- C12 (as amended). Every `Physical` obtained from the default constructor, or
from `Physical(pos, mass, radius)` called with positive mass and radius,
through `setPosition`, `setVelocity`, `addImpulse`, `step`, `checkCollision`,
`setRadius` and `setMass` with a positive argument, has mass `> 0` and radius
`> 0`; a non-positive radius handed to `setRadius` is rejected by its assertion
and whatever `setRadius` stores is positive. -/
theorem reachable_mass_radius_pos (sqrt : F → F) (p : Physical F)
    (h : Physical.Reachable sqrt p) :
    0 < p.mass ∧ 0 < p.radius ∧
    (∀ r : F, r ≤ 0 → p.setRadius r = none) ∧
    (∀ (r : F) (q : Physical F), p.setRadius r = some q → 0 < q.radius ∧ 0 < q.mass) := by
  have inv : 0 < p.mass ∧ 0 < p.radius := by
    induction h with
    | default => exact ⟨one_pos, one_pos⟩
    | new pos mass radius hm hr => exact ⟨hm, hr⟩
    | setPosition p pos _ ih => exact ih
    | setVelocity p vel _ ih => exact ih
    | addImpulse p impulse _ ih => exact ih
    | setMass p mass _ hm ih => exact ⟨hm, ih.2⟩
    | setRadius p q radius _ hq ih =>
      unfold Physical.setRadius at hq
      split at hq
      · rename_i hr
        cases hq
        exact ⟨ih.1, hr⟩
      · cases hq
    | step p _ ih => exact ih
    | checkSelf a b _ _ iha _ =>
      have hk := checkCollision_mass_radius sqrt a b
      simp only [Physical.mass, Physical.radius] at iha ⊢
      rw [hk.1, hk.2.1]
      exact iha
    | checkOther a b _ _ _ ihb =>
      have hk := checkCollision_mass_radius sqrt a b
      simp only [Physical.mass, Physical.radius] at ihb ⊢
      rw [hk.2.2.1, hk.2.2.2]
      exact ihb
  refine ⟨inv.1, inv.2, ?_, ?_⟩
  · intro r hr
    simp only [Physical.setRadius, if_neg (not_lt.mpr hr)]
  · intro r q hq
    unfold Physical.setRadius at hq
    split at hq
    · rename_i hr
      cases hq
      exact ⟨hr, inv.1⟩
    · cases hq

/-- C12 counterexample. `setMass(-1)` on a default-constructed body, and the
constructor called with mass `0`, store a non-positive mass: no check rejects
it. -/
theorem reachable_mass_radius_pos_counterexample :
    ((Physical.default : Physical ℚ).setMass (-1)).mass = -1 ∧
    ¬ 0 < ((Physical.default : Physical ℚ).setMass (-1)).mass ∧
    (Physical.new (⟨0, 0⟩ : Vec2 ℚ) 0 1).mass = 0 ∧
    ¬ 0 < (Physical.new (⟨0, 0⟩ : Vec2 ℚ) 0 1).mass := by
  refine ⟨rfl, ?_, rfl, ?_⟩ <;> norm_num [Physical.setMass, Physical.default, Physical.new,
    Physical.mass]

/-- C12 (as amended) at a concrete body: default-constructed, then `setMass(3)`,
`addImpulse((1, 0))` and one `step()`. -/
theorem reachable_mass_radius_pos_witness :
    0 < ((((Physical.default : Physical ℚ).setMass 3).addImpulse ⟨1, 0⟩).step ratSqrt).mass ∧
    0 < ((((Physical.default : Physical ℚ).setMass 3).addImpulse ⟨1, 0⟩).step ratSqrt).radius ∧
    ((((Physical.default : Physical ℚ).setMass 3).addImpulse ⟨1, 0⟩).step ratSqrt).setRadius 0
      = none :=
  have h := reachable_mass_radius_pos ratSqrt
    ((((Physical.default : Physical ℚ).setMass 3).addImpulse ⟨1, 0⟩).step ratSqrt)
    (Physical.Reachable.step _ (Physical.Reachable.addImpulse _ _
      (Physical.Reachable.setMass _ _ Physical.Reachable.default (by norm_num))))
  ⟨h.1, h.2.1, h.2.2.1 0 le_rfl⟩

/-- Bodies at the same position are always within summed-radius range, and the
vector handed to `glm::normalize` is then the zero vector. -/
theorem checkCollisionNormalizeArg_coincident (a b : Physical F)
    (h : a.position = b.position) :
    a.checkCollisionNormalizeArg b = some 0 := by
  have hz : a.position - b.position = 0 := by
    rw [h]; ext <;> simp
  have hdd : ¬ dot (0 : Vec2 F) 0 > (a.radius + b.radius) * (a.radius + b.radius) := by
    simp only [dot, Vec2.zero_x, Vec2.zero_y, mul_zero, add_zero, gt_iff_lt, not_lt]
    exact mul_self_nonneg _
  simp only [Physical.checkCollisionNormalizeArg, hz, if_neg hdd]

/-- C13 at two bodies at the origin. With coinciding positions
`a.checkCollision(b)` is not rejected: it returns true, and on the way it hands
the zero vector to `glm::normalize`. -/
theorem checkCollision_coincident_not_rejected :
    exB.position = exD.position ∧
    exB.checkCollisionNormalizeArg exD = some 0 ∧
    (exB.checkCollision ratSqrt exD).ret = true ∧
    dot (0 : Vec2 ℚ) 0 = 0 ∧ ratSqrt 0 = 0 := by
  have hp : exB.position = exD.position := rfl
  have hd : ¬ dot (exB.position - exD.position) (exB.position - exD.position)
      > (exB.radius + exD.radius) * (exB.radius + exD.radius) := by
    norm_num [exB, exD, Physical.position, Physical.radius, dot]
  refine ⟨hp, checkCollisionNormalizeArg_coincident exB exD hp, ?_, by simp [dot],
    by simp [ratSqrt, natRoot]⟩
  by_cases hs : dot (exB.velocity - exD.velocity)
      (normalize ratSqrt (exB.position - exD.position)) > 0
  · rw [checkCollision_separating ratSqrt exB exD hd hs]
  · rw [checkCollision_hit ratSqrt exB exD hd hs]

/-- Element access inside the vector succeeds with the element. -/
theorem pointAt_of_lt {G : Type} (poly : ConvexPolygon G) (k : Nat)
    (hk : k < poly.m_points.length) :
    poly.pointAt (k : Int) = .ok (poly.m_points.get ⟨k, hk⟩) := by
  have h0 : (0 : Int) ≤ (k : Int) := Int.ofNat_nonneg k
  simp only [ConvexPolygon.pointAt, if_pos h0, Int.toNat_ofNat,
    List.getElem?_eq_getElem hk]
  rfl

/-- C16. For a polygon with `n ≥ 1` vertices and `-1 ≤ i ≤ n`, `vertex(i)`
returns the vertex at position `i mod n`: `vertex(-1)` is the last vertex,
`vertex(n)` is `vertex(0)`, and `vertex(i)` for `0 ≤ i < n` is the `i`-th
vertex.  An index outside `[-1, n]` is rejected by the assertion. -/
theorem vertex_circular {G : Type} (poly : ConvexPolygon G) (i : Int)
    (hn : 1 ≤ poly.m_points.length) (hlo : -1 ≤ i) (hhi : i ≤ poly.vertexCount) :
    (∃ v, poly.vertex i = .ok v ∧
        poly.m_points[(i % poly.vertexCount).toNat]? = some v) ∧
    (∃ v, poly.vertex (-1) = .ok v ∧ poly.m_points.getLast? = some v) ∧
    poly.vertex poly.vertexCount = poly.vertex 0 ∧
    (∀ k : Nat, k < poly.m_points.length →
        ∃ v, poly.vertex (k : Int) = .ok v ∧ poly.m_points[k]? = some v) ∧
    (∀ j : Int, j < -1 ∨ poly.vertexCount < j → poly.vertex j = .error .assertion) := by
  have hN : (1 : Int) ≤ (poly.m_points.length : Int) := by exact_mod_cast hn
  -- an index inside the vector
  have hin : ∀ k : Nat, ∀ hk : k < poly.m_points.length,
      poly.vertex (k : Int) = .ok (poly.m_points.get ⟨k, hk⟩) := by
    intro k hk
    have hkN : (k : Int) < (poly.m_points.length : Int) := by exact_mod_cast hk
    have c1 : (k : Int) ≥ -1 ∧ (k : Int) ≤ (poly.m_points.length : Int) := by
      constructor <;> omega
    have c2 : ¬ (k : Int) < 0 := by omega
    simp only [ConvexPolygon.vertex, if_pos c1, if_neg c2, if_pos hkN]
    exact pointAt_of_lt poly k hk
  -- the index -1
  have hlast : poly.vertex (-1)
      = .ok (poly.m_points.get ⟨poly.m_points.length - 1, by omega⟩) := by
    have c1 : (-1 : Int) ≥ -1 ∧ (-1 : Int) ≤ (poly.m_points.length : Int) := by
      constructor <;> omega
    have c2 : (-1 : Int) < 0 := by omega
    have e : (poly.m_points.length : Int) - 1 = ((poly.m_points.length - 1 : Nat) : Int) := by
      omega
    simp only [ConvexPolygon.vertex, if_pos c1, if_pos c2, e]
    exact pointAt_of_lt poly (poly.m_points.length - 1) (by omega)
  -- the index n
  have hwrap : poly.vertex poly.vertexCount = poly.vertex 0 := by
    have c1 : (poly.m_points.length : Int) ≥ -1
        ∧ (poly.m_points.length : Int) ≤ (poly.m_points.length : Int) := by
      constructor <;> omega
    have c2 : ¬ (poly.m_points.length : Int) < 0 := by omega
    have c3 : ¬ (poly.m_points.length : Int) < (poly.m_points.length : Int) := by omega
    have d1 : (0 : Int) ≥ -1 ∧ (0 : Int) ≤ (poly.m_points.length : Int) := by
      constructor <;> omega
    have d2 : ¬ (0 : Int) < 0 := by omega
    have d3 : (0 : Int) < (poly.m_points.length : Int) := by omega
    simp only [ConvexPolygon.vertex, ConvexPolygon.vertexCount, if_pos c1, if_neg c2,
      if_neg c3, if_pos d1, if_neg d2, if_pos d3]
  refine ⟨?_, ?_, hwrap, ?_, ?_⟩
  · simp only [ConvexPolygon.vertexCount] at hhi ⊢
    rcases lt_trichotomy i 0 with hneg | hzero | hpos
    · -- i = -1
      have hi : i = -1 := by omega
      subst hi
      refine ⟨_, hlast, ?_⟩
      have hm : (-1 : Int) % (poly.m_points.length : Int)
          = ((poly.m_points.length - 1 : Nat) : Int) := by
        have h1 : (-1 : Int) = ((poly.m_points.length - 1 : Nat) : Int)
            + (-1) * (poly.m_points.length : Int) := by omega
        rw [h1, Int.add_mul_emod_self]
        exact Int.emod_eq_of_lt (Int.ofNat_nonneg _) (by omega)
      rw [hm, Int.toNat_ofNat]
      exact List.getElem?_eq_getElem _
    · subst hzero
      refine ⟨_, hin 0 (by omega), ?_⟩
      simp only [Int.zero_emod, Int.toNat_zero]
      exact List.getElem?_eq_getElem _
    · rcases hhi.lt_or_eq with hlt | heq
      · obtain ⟨k, rfl⟩ := Int.eq_ofNat_of_zero_le hpos.le
        have hk : k < poly.m_points.length := by exact_mod_cast hlt
        refine ⟨_, hin k hk, ?_⟩
        rw [Int.emod_eq_of_lt (Int.ofNat_nonneg _) hlt, Int.toNat_ofNat]
        exact List.getElem?_eq_getElem _
      · subst heq
        have h0 := hin 0 (by omega)
        have hw : poly.vertex (poly.m_points.length : Int) = poly.vertex 0 := hwrap
        refine ⟨_, hw.trans h0, ?_⟩
        rw [Int.emod_self, Int.toNat_zero]
        exact List.getElem?_eq_getElem _
  · refine ⟨_, hlast, ?_⟩
    rw [List.getLast?_eq_getElem?]
    exact List.getElem?_eq_getElem _
  · intro k hk
    exact ⟨_, hin k hk, List.getElem?_eq_getElem _⟩
  · intro j hj
    have c : ¬ (j ≥ -1 ∧ j ≤ (poly.m_points.length : Int)) := by
      simp only [ConvexPolygon.vertexCount] at hj
      omega
    simp only [ConvexPolygon.vertex, if_neg c]

/-- C16 at the triangle `(0,0)`, `(1,0)`, `(0,1)`: `vertex(-1)` is the last
vertex, `vertex(3)` is the first one, `vertex(4)` fails the assertion. -/
theorem vertex_circular_witness :
    exTriangle.vertex (-1) = .ok ⟨0, 1⟩ ∧
    exTriangle.vertex 3 = .ok ⟨0, 0⟩ ∧
    exTriangle.vertex 4 = .error .assertion := by
  have h := vertex_circular exTriangle (-1) (by simp [exTriangle]) (by norm_num)
    (by simp [ConvexPolygon.vertexCount, exTriangle])
  obtain ⟨v, hv, hl⟩ := h.2.1
  obtain ⟨w, hw, hz⟩ := h.2.2.2.1 0 (by simp [exTriangle])
  have hv1 : v = ⟨0, 1⟩ := by
    simp [exTriangle] at hl
    exact hl.symm
  have hw1 : w = ⟨0, 0⟩ := by
    simp [exTriangle] at hz
    exact hz.symm
  have h3 : exTriangle.vertex 3 = exTriangle.vertex 0 := h.2.2.1
  refine ⟨by rw [hv, hv1], ?_, ?_⟩
  · rw [h3]
    have hw2 : exTriangle.vertex 0 = .ok w := hw
    rw [hw2, hw1]
  · exact h.2.2.2.2 4 (Or.inr (by simp [ConvexPolygon.vertexCount, exTriangle]))

/-- C17. `getResource(name)` throws `NotFound` exactly when no resource is
registered under `name`; otherwise it returns the resource registered under
`name`.  In both cases the registry is the same afterwards (no entry is
inserted).  The error text of the exception is `resource "<name>" not found!`. -/
theorem getResource_spec {W : Type} (null : W) (m : List (String × W)) (name : String) :
    ((∃ e, (getResource null m name).1 = .error e) ↔ m.lookup name = none) ∧
    (m.lookup name = none →
      (getResource null m name).1 = .error (NotFound "" name) ∧
      (NotFound "" name).error = "resource \"" ++ name ++ "\" not found!" ∧
      (NotFound "" name).resource = name) ∧
    (∀ r, m.lookup name = some r → (getResource null m name).1 = .ok r) ∧
    (getResource null m name).2 = m := by
  cases hl : m.lookup name with
  | none =>
    have hc : umCount m name = 0 := by simp [umCount, hl]
    have hg : getResource null m name = (.error (NotFound "" name), m) := by
      simp only [getResource, if_pos hc]
    rw [hg]
    refine ⟨⟨fun _ => rfl, fun _ => ⟨_, rfl⟩⟩, fun _ => ⟨rfl, rfl, rfl⟩, ?_, rfl⟩
    intro r hr
    cases hr
  | some v =>
    have hc : ¬ umCount m name = 0 := by simp [umCount, hl]
    have hg : getResource null m name = (.ok v, m) := by
      simp only [getResource, if_neg hc, umIndex, hl]
    rw [hg]
    refine ⟨⟨?_, ?_⟩, ?_, ?_, rfl⟩
    · rintro ⟨e, he⟩
      cases he
    · intro h
      cases h
    · intro h
      cases h
    · intro r hr
      cases hr
      rfl

/-- C17 at a registry holding `"ship"` and `"font"`: `"font"` is returned,
`"mesh"` throws with the documented text, and the registry stays as it was. -/
theorem getResource_spec_witness :
    (getResource 0 exRegistry "font").1 = .ok 2 ∧
    (getResource 0 exRegistry "mesh").1
      = .error ⟨"", "mesh", "resource \"mesh\" not found!"⟩ ∧
    (getResource 0 exRegistry "mesh").2 = exRegistry :=
  ⟨(getResource_spec 0 exRegistry "font").2.2.1 2 (by decide),
   ((getResource_spec 0 exRegistry "mesh").2.1 (by decide)).1.trans (by rfl),
   (getResource_spec 0 exRegistry "mesh").2.2.2⟩

/-- The loop of `zoneAt` is the left fold that applies the zones containing
the point. -/
theorem zoneAtLoop_eq_foldl {G Q : Type} (p : Vec2 G) (zs : List (Zone G Q)) (zp : Q) :
    zoneAtLoop p zs zp
      = zs.foldl (fun acc z => if z.hasPoint p then z.apply acc else acc) zp := by
  induction zs generalizing zp with
  | nil => rfl
  | cons z rest ih => simp only [zoneAtLoop, List.foldl_cons, ih]

/-- C14. `World.zoneAt(p)` is the left fold over the zones in container order,
started from the root `ZoneProps`, that applies `apply()` of a zone exactly when
its `hasPoint(p)` is true.  Hence with no zone containing `p` the root props
come back unchanged; and when `Z1` and `Z2`, added with `addZone` in that
order, both contain `p`, the result is `Z2.apply` of `Z1.apply` of what the
earlier zones gave, so a property that `Z2` overrides carries the value of
`Z2`. -/
theorem zoneAt_fold {G Q T : Type} (w : World G Q T) (p : Vec2 G) :
    w.zoneAt p
      = w.m_zones.foldl (fun acc z => if z.hasPoint p then z.apply acc else acc)
          w.m_rootzone ∧
    ((∀ z ∈ w.m_zones, z.hasPoint p = false) → w.zoneAt p = w.m_rootzone) ∧
    (∀ Z1 Z2 : Zone G Q, Z1.hasPoint p = true → Z2.hasPoint p = true →
      ((w.addZone Z1).addZone Z2).zoneAt p = Z2.apply (Z1.apply (w.zoneAt p)) ∧
      ∀ (V : Type) (prop : Q → V) (v : V), (∀ zp, prop (Z2.apply zp) = v) →
        prop (((w.addZone Z1).addZone Z2).zoneAt p) = v) := by
  have hfold := zoneAtLoop_eq_foldl p w.m_zones w.m_rootzone
  refine ⟨hfold, ?_, ?_⟩
  · intro hnone
    have key : ∀ (zs : List (Zone G Q)) (zp : Q),
        (∀ z ∈ zs, z.hasPoint p = false) → zoneAtLoop p zs zp = zp := by
      intro zs
      induction zs with
      | nil => intro zp _; rfl
      | cons z rest ih =>
        intro zp hz
        have h1 : z.hasPoint p = false := hz z (List.mem_cons_self _ _)
        simp only [zoneAtLoop, h1, Bool.false_eq_true, if_false]
        exact ih zp (fun t ht => hz t (List.mem_cons_of_mem _ ht))
    exact key w.m_zones w.m_rootzone hnone
  · intro Z1 Z2 h1 h2
    have e : ((w.addZone Z1).addZone Z2).zoneAt p = Z2.apply (Z1.apply (w.zoneAt p)) := by
      simp only [World.zoneAt, World.addZone, zoneAtLoop_eq_foldl, List.foldl_append,
        List.foldl_cons, List.foldl_nil, h1, h2, if_true]
    refine ⟨e, ?_⟩
    intro V prop v hov
    rw [e]
    exact hov _

/-- C14 at the concrete world: with no zone the root props `(1, 1)` come back;
after adding `exZ1` and then `exZ2`, which both contain `(1, 1)` and both set
the first property, `zoneAt` gives the value 7 of the zone added last. -/
theorem zoneAt_fold_witness :
    exWorld.zoneAt ⟨1, 1⟩ = (1, 1) ∧
    ((exWorld.addZone exZ1).addZone exZ2).zoneAt ⟨1, 1⟩ = (7, 1) ∧
    (((exWorld.addZone exZ1).addZone exZ2).zoneAt ⟨1, 1⟩).1 = 7 :=
  ⟨(zoneAt_fold exWorld ⟨1, 1⟩).2.1 (by simp [exWorld]),
   ((zoneAt_fold exWorld ⟨1, 1⟩).2.2 exZ1 exZ2 (by simp [exZ1]) (by simp [exZ2])).1.trans
     (by rfl),
   ((zoneAt_fold exWorld ⟨1, 1⟩).2.2 exZ1 exZ2 (by simp [exZ1]) (by simp [exZ2])).2
     Nat Prod.fst 7 (fun _ => rfl)⟩

/-- What one loop of `checkTerrainCollision` does: either every solid misses and
all of them are queried, or the loop stops at the first solid that hits, having
queried the solids up to and including that one. -/
theorem terrainLoop_spec {G T : Type} (ops : SolidOps G T) (p : Vec2 G) (r : G) (v : Vec2 G)
    (l q : List T) :
    ((∀ t ∈ l, ops.circleCollision t p r v = none) ∧
        terrainLoop ops p r v l q = (none, q ++ l)) ∨
    (∃ pre s post hit, l = pre ++ s :: post ∧
        (∀ t ∈ pre, ops.circleCollision t p r v = none) ∧
        ops.circleCollision s p r v = some hit ∧
        terrainLoop ops p r v l q = (some hit, q ++ pre ++ [s])) := by
  induction l generalizing q with
  | nil =>
    left
    exact ⟨fun t ht => absurd ht (List.not_mem_nil t), by simp [terrainLoop]⟩
  | cons s rest ih =>
    cases hs : ops.circleCollision s p r v with
    | some hit =>
      right
      refine ⟨[], s, rest, hit, rfl, fun t ht => absurd ht (List.not_mem_nil t), hs, ?_⟩
      simp [terrainLoop, hs]
    | none =>
      have e : terrainLoop ops p r v (s :: rest) q = terrainLoop ops p r v rest (q ++ [s]) := by
        simp [terrainLoop, hs]
      rcases ih (q ++ [s]) with ⟨hall, hres⟩ | ⟨pre, s1, post, hit, hl, hpre, hhit, hres⟩
      · left
        refine ⟨?_, ?_⟩
        · intro t ht
          rcases List.mem_cons.mp ht with rfl | ht1
          · exact hs
          · exact hall t ht1
        · rw [e, hres]
          simp
      · right
        refine ⟨s :: pre, s1, post, hit, by rw [hl]; rfl, ?_, hhit, ?_⟩
        · intro t ht
          rcases List.mem_cons.mp ht with rfl | ht1
          · exact hs
          · exact hpre t ht1
        · rw [e, hres]
          simp

/-- C15. `World.checkTerrainCollision` returns true exactly when at least one
dynamic or static solid reports a circle collision.  When it returns true, the
reported collision (`cp`, `normal`) is that of the first hitting solid in the
order all dynamic solids, then all static solids, and the solids queried are
those up to and including that one; if some dynamic solid hits, the reported
solid is a dynamic one and no static solid is queried.  When it returns false
every solid was queried and the out-parameters are untouched. -/
theorem checkTerrainCollision_first_hit {G Q T : Type} (ops : SolidOps G T) (w : World G Q T)
    (p : Vec2 G) (r : G) (v cp normal : Vec2 G) :
    ((w.checkTerrainCollision ops p r v cp normal).ret = true ↔
      ∃ s ∈ w.m_dyn_terrain ++ w.m_static_terrain,
        (ops.circleCollision s p r v).isSome = true) ∧
    ((w.checkTerrainCollision ops p r v cp normal).ret = true →
      ∃ pre s post hit, w.m_dyn_terrain ++ w.m_static_terrain = pre ++ s :: post ∧
        (∀ t ∈ pre, ops.circleCollision t p r v = none) ∧
        ops.circleCollision s p r v = some hit ∧
        (w.checkTerrainCollision ops p r v cp normal).cp = hit.1 ∧
        (w.checkTerrainCollision ops p r v cp normal).normal = hit.2 ∧
        (w.checkTerrainCollision ops p r v cp normal).queried = pre ++ [s]) ∧
    ((∃ d ∈ w.m_dyn_terrain, (ops.circleCollision d p r v).isSome = true) →
      ∃ pre s post hit, w.m_dyn_terrain = pre ++ s :: post ∧
        (∀ t ∈ pre, ops.circleCollision t p r v = none) ∧
        ops.circleCollision s p r v = some hit ∧
        (w.checkTerrainCollision ops p r v cp normal).cp = hit.1 ∧
        (w.checkTerrainCollision ops p r v cp normal).normal = hit.2 ∧
        (w.checkTerrainCollision ops p r v cp normal).queried = pre ++ [s]) ∧
    ((w.checkTerrainCollision ops p r v cp normal).ret = false →
      (w.checkTerrainCollision ops p r v cp normal).cp = cp ∧
      (w.checkTerrainCollision ops p r v cp normal).normal = normal ∧
      (w.checkTerrainCollision ops p r v cp normal).queried
        = w.m_dyn_terrain ++ w.m_static_terrain) := by
  rcases terrainLoop_spec ops p r v w.m_dyn_terrain [] with
    ⟨hdall, hdres⟩ | ⟨pre, s, post, hit, hl, hpre, hhit, hres⟩
  · rw [List.nil_append] at hdres
    rcases terrainLoop_spec ops p r v w.m_static_terrain w.m_dyn_terrain with
      ⟨hsall, hsres⟩ | ⟨pre, s, post, hit, hl, hpre, hhit, hres⟩
    · -- nothing hits
      have e : w.checkTerrainCollision ops p r v cp normal
          = ⟨false, cp, normal, w.m_dyn_terrain ++ w.m_static_terrain⟩ := by
        simp only [World.checkTerrainCollision, hdres, hsres]
      have hno : ¬ ∃ s ∈ w.m_dyn_terrain ++ w.m_static_terrain,
          (ops.circleCollision s p r v).isSome = true := by
        rintro ⟨s, hs, hit⟩
        rcases List.mem_append.mp hs with h1 | h1
        · rw [hdall s h1] at hit; cases hit
        · rw [hsall s h1] at hit; cases hit
      rw [e]
      refine ⟨⟨fun h => (by cases h), fun h => absurd h hno⟩, fun h => (by cases h), ?_,
        fun _ => ⟨rfl, rfl, rfl⟩⟩
      rintro ⟨d, hd, hit⟩
      rw [hdall d hd] at hit
      cases hit
    · -- the first hit is a static solid
      have e : w.checkTerrainCollision ops p r v cp normal
          = ⟨true, hit.1, hit.2, w.m_dyn_terrain ++ pre ++ [s]⟩ := by
        simp only [World.checkTerrainCollision, hdres, hres]
      rw [e]
      refine ⟨⟨fun _ => ⟨s, ?_, by rw [hhit]; rfl⟩, fun _ => rfl⟩, fun _ => ?_, ?_,
        fun h => (by cases h)⟩
      · rw [hl]
        exact List.mem_append_right _ (List.mem_append_right _ (List.mem_cons_self _ _))
      · refine ⟨w.m_dyn_terrain ++ pre, s, post, hit, by rw [hl]; simp, ?_, hhit, rfl, rfl, rfl⟩
        intro t ht
        rcases List.mem_append.mp ht with h1 | h1
        · exact hdall t h1
        · exact hpre t h1
      · rintro ⟨d, hd, hdhit⟩
        rw [hdall d hd] at hdhit
        cases hdhit
  · -- the first hit is a dynamic solid
    rw [List.nil_append] at hres
    have e : w.checkTerrainCollision ops p r v cp normal
        = ⟨true, hit.1, hit.2, pre ++ [s]⟩ := by
      simp only [World.checkTerrainCollision, hres]
    rw [e]
    refine ⟨⟨fun _ => ⟨s, ?_, by rw [hhit]; rfl⟩, fun _ => rfl⟩, fun _ => ?_, fun _ => ?_,
      fun h => (by cases h)⟩
    · rw [hl]
      exact List.mem_append_left _ (List.mem_append_right _ (List.mem_cons_self _ _))
    · exact ⟨pre, s, post ++ w.m_static_terrain, hit, by rw [hl]; simp, hpre, hhit,
        rfl, rfl, rfl⟩
    · exact ⟨pre, s, post, hit, hl, hpre, hhit, rfl, rfl, rfl⟩

/-- C15 at the concrete world (dynamic solids `0` and `2`, static solid `1`):
the empty solid `0` misses, the dynamic solid `2` hits, and the static solid is
never queried. -/
theorem checkTerrainCollision_first_hit_witness :
    (exWorld.checkTerrainCollision exOps ⟨3, 4⟩ 1 ⟨0, -1⟩ 0 0).ret = true ∧
    (exWorld.checkTerrainCollision exOps ⟨3, 4⟩ 1 ⟨0, -1⟩ 0 0).queried = [0, 2] ∧
    (exWorld.checkTerrainCollision exOps ⟨3, 4⟩ 1 ⟨0, -1⟩ 0 0).cp = ⟨3, 4⟩ :=
  ⟨(checkTerrainCollision_first_hit exOps exWorld ⟨3, 4⟩ 1 ⟨0, -1⟩ 0 0).1.mpr
      ⟨2, by simp [exWorld], by simp [exOps]⟩,
   rfl, rfl⟩

/-- The log of the loop of `makeHole` is the schedule of the remaining solids,
and every solid is replaced by its nibbled state, refreshed when the `nibble`
returned true. -/
theorem makeHoleLoop_log {G T : Type} (ops : SolidOps G T) (hole : ConvexPolygon G)
    (l : List T) (i : Nat) :
    (makeHoleLoop ops hole l i).2
      = (l.enumFrom i).flatMap (fun e => solidCalls ops hole e.1 e.2) ∧
    (makeHoleLoop ops hole l i).1
      = l.map (fun s => if (ops.nibble s hole).1 then ops.updateGl (ops.nibble s hole).2
          else (ops.nibble s hole).2) := by
  induction l generalizing i with
  | nil => exact ⟨rfl, rfl⟩
  | cons s rest ih =>
    obtain ⟨h1, h2⟩ := ih (i + 1)
    cases hn : (ops.nibble s hole).1 with
    | true =>
      simp [makeHoleLoop, hn, h1, h2, List.enumFrom_cons, solidCalls]
    | false =>
      simp [makeHoleLoop, hn, h1, h2, List.enumFrom_cons, solidCalls]

/-- Which `updateGl` calls the loop of `makeHole` makes: one on the solid with
index `k` exactly when that solid exists and its `nibble` returned true. -/
theorem makeHoleLoop_updateGl_mem {G T : Type} (ops : SolidOps G T) (hole : ConvexPolygon G)
    (l : List T) (i k : Nat) :
    SolidCall.updateGl k ∈ (makeHoleLoop ops hole l i).2 ↔
      i ≤ k ∧ ∃ s, l[k - i]? = some s ∧ (ops.nibble s hole).1 = true := by
  induction l generalizing i with
  | nil => simp [makeHoleLoop]
  | cons s rest ih =>
    have hsplit : (∃ t, (s :: rest)[k - i]? = some t ∧ (ops.nibble t hole).1 = true) ↔
        (k = i ∧ (ops.nibble s hole).1 = true) ∨
        (i < k ∧ ∃ t, rest[k - (i + 1)]? = some t ∧ (ops.nibble t hole).1 = true) ∨
        (k < i ∧ (ops.nibble s hole).1 = true) := by
      rcases Nat.lt_trichotomy k i with hlt | heq | hgt
      · have h0 : k - i = 0 := by omega
        rw [h0]
        simp only [List.getElem?_cons_zero, Option.some.injEq, exists_eq_left']
        constructor
        · intro h; exact Or.inr (Or.inr ⟨hlt, h⟩)
        · rintro (⟨h, _⟩ | ⟨h, _⟩ | ⟨_, h⟩)
          · omega
          · omega
          · exact h
      · subst heq
        simp only [Nat.sub_self, List.getElem?_cons_zero, Option.some.injEq, exists_eq_left']
        constructor
        · intro h; exact Or.inl ⟨trivial, h⟩
        · rintro (⟨_, h⟩ | ⟨h, _⟩ | ⟨h, _⟩)
          · exact h
          · omega
          · omega
      · have h1 : k - i = (k - (i + 1)) + 1 := by omega
        rw [h1, List.getElem?_cons_succ]
        constructor
        · intro h; exact Or.inr (Or.inl ⟨hgt, h⟩)
        · rintro (⟨h, _⟩ | ⟨_, h⟩ | ⟨h, _⟩)
          · omega
          · exact h
          · omega
    cases hn : (ops.nibble s hole).1 with
    | true =>
      simp only [makeHoleLoop, hn, if_true, List.mem_append, List.mem_cons, List.mem_singleton,
        List.not_mem_nil, or_false, SolidCall.updateGl.injEq, ih (i + 1), false_or, reduceCtorEq]
      rw [hsplit]
      simp only [hn, and_true]
      constructor
      · rintro (h | ⟨h1, h2⟩)
        · exact ⟨by omega, Or.inl h⟩
        · exact ⟨by omega, Or.inr (Or.inl ⟨by omega, h2⟩)⟩
      · rintro ⟨h1, (h | ⟨_, h2⟩ | h)⟩
        · exact Or.inl h
        · exact Or.inr ⟨by omega, h2⟩
        · omega
    | false =>
      simp only [makeHoleLoop, hn, Bool.false_eq_true, if_false, List.mem_append,
        List.mem_singleton, ih (i + 1), false_or, reduceCtorEq]
      rw [hsplit]
      simp only [hn, Bool.false_eq_true, and_false, false_or, or_false]
      constructor
      · rintro ⟨h1, h2⟩
        exact ⟨by omega, by omega, h2⟩
      · rintro ⟨_, h1, h2⟩
        exact ⟨by omega, h2⟩

/-- C19 (as amended). `World.makeHole` does not defer the graphics refresh: a
dynamic solid whose geometry was changed by `nibble` (whose `nibble` returned
true) gets its `updateGl` call inside `makeHole` itself, and a dynamic solid
whose `nibble` returned false gets none.  Accordingly the solid that `makeHole`
leaves in the container is the nibbled solid with `updateGl` applied in the
first case and the nibbled solid as it is in the second. -/
theorem makeHole_updates_immediately {G Q T : Type} (ops : SolidOps G T) (w : World G Q T)
    (hole : ConvexPolygon G) (k : Nat) (s : T) (hk : w.m_dyn_terrain[k]? = some s) :
    (SolidCall.updateGl k ∈ (w.makeHole ops hole).2 ↔ (ops.nibble s hole).1 = true) ∧
    ((ops.nibble s hole).1 = true → SolidCall.updateGl k ∈ (w.makeHole ops hole).2) ∧
    ((ops.nibble s hole).1 = false → SolidCall.updateGl k ∉ (w.makeHole ops hole).2) ∧
    (w.makeHole ops hole).1.m_dyn_terrain[k]?
      = some (if (ops.nibble s hole).1 then ops.updateGl (ops.nibble s hole).2
          else (ops.nibble s hole).2) := by
  have key : SolidCall.updateGl k ∈ (w.makeHole ops hole).2 ↔ (ops.nibble s hole).1 = true := by
    simp only [World.makeHole, makeHoleLoop_updateGl_mem, Nat.sub_zero, hk, Nat.zero_le,
      true_and, Option.some.injEq, exists_eq_left']
  refine ⟨key, key.mpr, ?_, ?_⟩
  · intro hf hmem
    rw [key.mp hmem] at hf
    cases hf
  · have hst : (w.makeHole ops hole).1.m_dyn_terrain
        = w.m_dyn_terrain.map (fun s => if (ops.nibble s hole).1
            then ops.updateGl (ops.nibble s hole).2 else (ops.nibble s hole).2) :=
      (makeHoleLoop_log ops hole w.m_dyn_terrain 0).2
    rw [hst, List.getElem?_map, hk]
    rfl

/-- C19 counterexample. In the concrete world the dynamic solid with index 1
is changed by `nibble`, and `makeHole` itself makes the `updateGl` call on it:
the calls are `nibble 0`, `nibble 1`, `updateGl 1`. -/
theorem makeHole_updates_immediately_counterexample :
    (exOps.nibble 2 exTriangle).1 = true ∧
    (exWorld.makeHole exOps exTriangle).2
      = [SolidCall.nibble 0, SolidCall.nibble 1, SolidCall.updateGl 1] ∧
    ¬ (∀ k, SolidCall.updateGl k ∉ (exWorld.makeHole exOps exTriangle).2) := by
  have h : (exWorld.makeHole exOps exTriangle).2
      = [SolidCall.nibble 0, SolidCall.nibble 1, SolidCall.updateGl 1] := rfl
  refine ⟨rfl, h, ?_⟩
  intro hall
  exact hall 1 (by rw [h]; simp)

/-- C19 (as amended) at the concrete world: the solid with index 1 is changed
and is refreshed inside `makeHole` (two pieces, one left after the hole, `11`
once refreshed), the solid with index 0 is neither. -/
theorem makeHole_updates_immediately_witness :
    SolidCall.updateGl 1 ∈ (exWorld.makeHole exOps exTriangle).2 ∧
    SolidCall.updateGl 0 ∉ (exWorld.makeHole exOps exTriangle).2 ∧
    (exWorld.makeHole exOps exTriangle).1.m_dyn_terrain[1]? = some 11 ∧
    (exWorld.makeHole exOps exTriangle).1.m_dyn_terrain[0]? = some 0 :=
  ⟨(makeHole_updates_immediately exOps exWorld exTriangle 1 2 rfl).2.1 rfl,
   (makeHole_updates_immediately exOps exWorld exTriangle 0 0 rfl).2.2.1 rfl,
   (makeHole_updates_immediately exOps exWorld exTriangle 1 2 rfl).2.2.2,
   (makeHole_updates_immediately exOps exWorld exTriangle 0 0 rfl).2.2.2⟩

/-- The ship loop body logs exactly `shipEvents n i` and leaves the projectile
container alone. -/
theorem shipIteration_log {Q T : Type} (sqrt : F → F)
    (shipStep : World F Q T → Ship F → Ship F) (n i : Nat)
    (st : World F Q T × List StepEvent) :
    (World.shipIteration sqrt shipStep n i st).2 = st.2 ++ shipEvents n i ∧
    (World.shipIteration sqrt shipStep n i st).1.m_projectiles = st.1.m_projectiles := by
  have inner : ∀ (js : List Nat) (s : World F Q T × List StepEvent),
      (js.foldl (fun s j =>
          ({ s.1 with m_ships := collideShips sqrt i j s.1.m_ships },
           s.2 ++ [StepEvent.check (BodyRef.ship i) (BodyRef.ship j)])) s).2
        = s.2 ++ js.map (fun j => StepEvent.check (BodyRef.ship i) (BodyRef.ship j)) ∧
      (js.foldl (fun s j =>
          ({ s.1 with m_ships := collideShips sqrt i j s.1.m_ships },
           s.2 ++ [StepEvent.check (BodyRef.ship i) (BodyRef.ship j)])) s).1.m_projectiles
        = s.1.m_projectiles := by
    intro js
    induction js with
    | nil => intro s; simp
    | cons j rest ih =>
      intro s
      rw [List.foldl_cons]
      obtain ⟨h1, h2⟩ := ih ({ s.1 with m_ships := collideShips sqrt i j s.1.m_ships },
           s.2 ++ [StepEvent.check (BodyRef.ship i) (BodyRef.ship j)])
      rw [h1, h2]
      simp
  unfold World.shipIteration
  simp only []
  constructor
  · rw [(inner _ _).1]
    simp [shipEvents, pairChecks]
  · rw [(inner _ _).2]

/-- The calls of `World::step` are the schedule for the numbers of ships and
projectiles the world has. -/
theorem step_log {Q T : Type} (sqrt : F → F)
    (shipStep : World F Q T → Ship F → Ship F) (w : World F Q T) :
    (w.step sqrt shipStep).2 = stepSchedule w.m_ships.length w.m_projectiles.length := by
  have ships : ∀ (n : Nat) (is : List Nat) (st : World F Q T × List StepEvent),
      (is.foldl (fun st i => World.shipIteration sqrt shipStep n i st) st).2
        = st.2 ++ is.flatMap (shipEvents n) ∧
      (is.foldl (fun st i => World.shipIteration sqrt shipStep n i st) st).1.m_projectiles
        = st.1.m_projectiles := by
    intro n is
    induction is with
    | nil => intro st; simp
    | cons i rest ih =>
      intro st
      rw [List.foldl_cons]
      obtain ⟨h1, h2⟩ := ih (World.shipIteration sqrt shipStep n i st)
      obtain ⟨g1, g2⟩ := shipIteration_log sqrt shipStep n i st
      rw [h1, h2, g1, g2]
      simp
  have projs : ∀ (ks : List Nat) (st : World F Q T × List StepEvent),
      (ks.foldl (fun st k => World.projectileIteration sqrt k st) st).2
        = st.2 ++ ks.map (fun k => StepEvent.integrate (BodyRef.projectile k)) := by
    intro ks
    induction ks with
    | nil => intro st; simp
    | cons k rest ih =>
      intro st
      rw [List.foldl_cons, ih]
      simp [World.projectileIteration]
  obtain ⟨h1, h2⟩ := ships w.m_ships.length (List.range w.m_ships.length) (w, [])
  unfold World.step
  simp only []
  rw [projs, h1, h2]
  simp [stepSchedule]

/-- Membership in the calls of one iteration of the ship loop. -/
theorem mem_shipEvents (n i : Nat) (e : StepEvent) :
    e ∈ shipEvents n i ↔
      e = StepEvent.shipStep i ∨ e = StepEvent.integrate (BodyRef.ship i) ∨
      ∃ j, i < j ∧ j < n ∧ e = StepEvent.check (BodyRef.ship i) (BodyRef.ship j) := by
  simp only [shipEvents, pairChecks, List.mem_append, List.mem_cons, List.mem_singleton,
    List.not_mem_nil, or_false, List.mem_map, List.mem_range'_1]
  constructor
  · rintro ((h | h) | ⟨j, ⟨h1, h2⟩, rfl⟩)
    · exact Or.inl h
    · exact Or.inr (Or.inl h)
    · exact Or.inr (Or.inr ⟨j, by omega, by omega, rfl⟩)
  · rintro (h | h | ⟨j, h1, h2, rfl⟩)
    · exact Or.inl (Or.inl h)
    · exact Or.inl (Or.inr h)
    · exact Or.inr ⟨j, ⟨by omega, by omega⟩, rfl⟩

/-- No call is repeated within one iteration of the ship loop. -/
theorem nodup_shipEvents (n i : Nat) : (shipEvents n i).Nodup := by
  have hinj : Function.Injective
      (fun j => StepEvent.check (BodyRef.ship i) (BodyRef.ship j)) := by
    intro a b h
    simpa using h
  have hp : (pairChecks n i).Nodup := (List.nodup_range' _ _).map hinj
  simp only [shipEvents, List.cons_append, List.nil_append, List.nodup_cons, List.mem_cons,
    reduceCtorEq, false_or, hp, and_true]
  simp [pairChecks]

/-- No call is repeated within one `World::step`. -/
theorem nodup_stepSchedule (n m : Nat) : (stepSchedule n m).Nodup := by
  have hinj : Function.Injective
      (fun k => StepEvent.integrate (BodyRef.projectile k)) := by
    intro a b h
    simpa using h
  rw [stepSchedule, List.nodup_append]
  refine ⟨?_, (List.nodup_range m).map hinj, ?_⟩
  · rw [List.nodup_flatMap]
    refine ⟨fun i _ => nodup_shipEvents n i, ?_⟩
    refine (List.pairwise_lt_range n).imp ?_
    intro a b hab e hea heb
    rw [mem_shipEvents] at hea heb
    rcases hea with rfl | rfl | ⟨j, _, _, rfl⟩ <;>
      rcases heb with h | h | ⟨j2, _, _, h⟩ <;> simp at h <;> omega
  · intro e he hp
    rw [List.mem_flatMap] at he
    obtain ⟨i, _, hi⟩ := he
    rw [mem_shipEvents] at hi
    rw [List.mem_map] at hp
    obtain ⟨k, _, rfl⟩ := hp
    rcases hi with h | h | ⟨j, _, _, h⟩ <;> simp at h

/-- Number of collision checks in the first `k` iterations of the ship loop. -/
theorem sum_pair_counts (n k : Nat) (hk : k ≤ n) :
    ((List.range k).map (fun i => n - (i + 1))).sum * 2 + k * (k + 1) = 2 * k * n := by
  induction k with
  | zero => simp
  | succ k ih =>
    have h := ih (by omega)
    rw [List.sum_range_succ]
    have e : n - (k + 1) + (k + 1) = n := Nat.sub_add_cancel hk
    nlinarith [h, e]

/-- Collision checks among the calls of the ship loop over the ships in `l`. -/
theorem countP_isCheck_flatMap (n : Nat) (l : List Nat) :
    (l.flatMap (shipEvents n)).countP StepEvent.isCheck
      = (l.map (fun i => n - (i + 1))).sum := by
  induction l with
  | nil => rfl
  | cons i rest ih =>
    have h1 : (shipEvents n i).countP StepEvent.isCheck = n - (i + 1) := by
      simp only [shipEvents, pairChecks, List.cons_append, List.nil_append]
      rw [List.countP_cons_of_neg, List.countP_cons_of_neg, List.countP_map]
      · rw [List.countP_eq_length.mpr]
        · simp
        · intro a _
          rfl
      · simp [StepEvent.isCheck]
      · simp [StepEvent.isCheck]
    rw [List.flatMap_cons, List.countP_append, ih, h1]
    simp

/-- The calls logged by `World::step`, counted: one integration per ship and
per projectile, one check per pair of ship indices `i < j` with receiver `i`,
`n * (n - 1) / 2` checks in all, every check between two ships, no call
twice. -/
theorem step_log_counts {Q T : Type} (sqrt : F → F)
    (shipStep : World F Q T → Ship F → Ship F) (w : World F Q T) :
    (∀ i, i < w.m_ships.length →
      (w.step sqrt shipStep).2.count (StepEvent.integrate (BodyRef.ship i)) = 1) ∧
    (∀ k, k < w.m_projectiles.length →
      (w.step sqrt shipStep).2.count (StepEvent.integrate (BodyRef.projectile k)) = 1) ∧
    (∀ i j, i < j → j < w.m_ships.length →
      (w.step sqrt shipStep).2.count (StepEvent.check (BodyRef.ship i) (BodyRef.ship j)) = 1) ∧
    (∀ a b, StepEvent.check a b ∈ (w.step sqrt shipStep).2 →
      ∃ i j, a = BodyRef.ship i ∧ b = BodyRef.ship j ∧ i < j ∧ j < w.m_ships.length) ∧
    (w.step sqrt shipStep).2.countP StepEvent.isCheck
      = w.m_ships.length * (w.m_ships.length - 1) / 2 ∧
    (∀ b, StepEvent.integrate b ∈ (w.step sqrt shipStep).2 →
      (∃ i, b = BodyRef.ship i ∧ i < w.m_ships.length) ∨
      (∃ k, b = BodyRef.projectile k ∧ k < w.m_projectiles.length)) ∧
    (w.step sqrt shipStep).2.Nodup := by
  rw [step_log]
  generalize w.m_ships.length = n
  generalize w.m_projectiles.length = m
  have hnd := nodup_stepSchedule n m
  have hmem : ∀ e, e ∈ stepSchedule n m ↔
      (∃ i, i < n ∧ e ∈ shipEvents n i) ∨
      (∃ k, k < m ∧ e = StepEvent.integrate (BodyRef.projectile k)) := by
    intro e
    simp only [stepSchedule, List.mem_append, List.mem_flatMap, List.mem_range, List.mem_map]
    constructor
    · rintro (h | ⟨k, hk, rfl⟩)
      · exact Or.inl h
      · exact Or.inr ⟨k, hk, rfl⟩
    · rintro (h | ⟨k, hk, rfl⟩)
      · exact Or.inl h
      · exact Or.inr ⟨k, hk, rfl⟩
  refine ⟨?_, ?_, ?_, ?_, ?_, ?_, hnd⟩
  · intro i hi
    apply List.count_eq_one_of_mem hnd
    rw [hmem]
    exact Or.inl ⟨i, hi, (mem_shipEvents n i _).mpr (Or.inr (Or.inl rfl))⟩
  · intro k hk
    apply List.count_eq_one_of_mem hnd
    rw [hmem]
    exact Or.inr ⟨k, hk, rfl⟩
  · intro i j hij hj
    apply List.count_eq_one_of_mem hnd
    rw [hmem]
    exact Or.inl ⟨i, by omega, (mem_shipEvents n i _).mpr (Or.inr (Or.inr ⟨j, hij, hj, rfl⟩))⟩
  · intro a b hab
    rw [hmem] at hab
    rcases hab with ⟨i, _, hi⟩ | ⟨k, _, hk⟩
    · rw [mem_shipEvents] at hi
      rcases hi with h | h | ⟨j, h1, h2, h⟩
      · cases h
      · cases h
      · cases h
        exact ⟨i, j, rfl, rfl, h1, h2⟩
    · cases hk
  · have hproj : ((List.range m).map
        (fun k => StepEvent.integrate (BodyRef.projectile k))).countP StepEvent.isCheck = 0 := by
      rw [List.countP_eq_zero]
      intro e he
      rw [List.mem_map] at he
      obtain ⟨k, _, rfl⟩ := he
      simp [StepEvent.isCheck]
    rw [stepSchedule, List.countP_append, hproj, add_zero, countP_isCheck_flatMap]
    have hs := sum_pair_counts n n le_rfl
    have hn : n * (n - 1) + n * (n + 1) = 2 * n * n := by
      cases n with
      | zero => rfl
      | succ k => simp only [Nat.add_sub_cancel]; ring
    have h2 : ((List.range n).map (fun i => n - (i + 1))).sum * 2 = n * (n - 1) := by omega
    omega
  · intro b hb
    rw [hmem] at hb
    rcases hb with ⟨i, hi, he⟩ | ⟨k, hk, he⟩
    · rw [mem_shipEvents] at he
      rcases he with h | h | ⟨j, _, _, h⟩
      · cases h
      · cases h
        exact Or.inl ⟨i, rfl, hi⟩
      · cases h
    · cases he
      exact Or.inr ⟨k, rfl, hk⟩

/-- The position and velocity after `step()` are determined by position,
velocity, accumulator and mass before it. -/
theorem step_of_fields (sqrt : F → F) (p q : Physical F)
    (h1 : p.m_pos = q.m_pos) (h2 : p.m_vel = q.m_vel) (h3 : p.m_imp = q.m_imp)
    (h4 : p.m_mass = q.m_mass) :
    (p.step sqrt).velocity = (q.step sqrt).velocity ∧
    (p.step sqrt).position = (q.step sqrt).position := by
  cases p
  cases q
  simp only at h1 h2 h3 h4
  subst h1 h2 h3 h4
  simp only [Physical.step, Physical.integrate, Physical.applyImpulse, evaluate,
    Physical.velocity, Physical.position, Physical.mass, Physical.imass, and_self]

/-- C18 at every body. `step()` never reads the radius: whatever two radii a
body is given, by `setRadius` or otherwise, one step leads to the same velocity
and the same position; only the stored radius differs. -/
theorem step_ignores_radius (sqrt : F → F) (p : Physical F) (r1 r2 : F) :
    (({ p with m_radius := r1 } : Physical F).step sqrt).velocity
      = (({ p with m_radius := r2 } : Physical F).step sqrt).velocity ∧
    (({ p with m_radius := r1 } : Physical F).step sqrt).position
      = (({ p with m_radius := r2 } : Physical F).step sqrt).position ∧
    (∀ q1 q2 : Physical F, p.setRadius r1 = some q1 → p.setRadius r2 = some q2 →
      q1.radius = r1 ∧ q2.radius = r2 ∧
      (q1.step sqrt).velocity = (q2.step sqrt).velocity ∧
      (q1.step sqrt).position = (q2.step sqrt).position) := by
  have h := step_of_fields sqrt ({ p with m_radius := r1 } : Physical F)
    ({ p with m_radius := r2 } : Physical F) rfl rfl rfl rfl
  have hv := h.1
  have hp := h.2
  refine ⟨hv, hp, ?_⟩
  intro q1 q2 h1 h2
  unfold Physical.setRadius at h1 h2
  split at h1
  · split at h2
    · cases h1
      cases h2
      exact ⟨rfl, rfl, hv, hp⟩
    · cases h2
  · cases h1

/-- Every call of the loop of `makeHole` is on a solid of the container it
runs over. -/
theorem makeHoleLoop_index {G T : Type} (ops : SolidOps G T) (hole : ConvexPolygon G)
    (l : List T) (i : Nat) (e : SolidCall) (he : e ∈ (makeHoleLoop ops hole l i).2) :
    ∃ k, (e = SolidCall.nibble k ∨ e = SolidCall.updateGl k) ∧ i ≤ k ∧ k < i + l.length := by
  induction l generalizing i with
  | nil => simp [makeHoleLoop] at he
  | cons s rest ih =>
    have hrest : e ∈ (makeHoleLoop ops hole rest (i + 1)).2 →
        ∃ k, (e = SolidCall.nibble k ∨ e = SolidCall.updateGl k) ∧ i ≤ k
          ∧ k < i + (s :: rest).length := by
      intro h
      obtain ⟨k, hk, h1, h2⟩ := ih (i + 1) h
      exact ⟨k, hk, by omega, by simp only [List.length_cons]; omega⟩
    cases hn : (ops.nibble s hole).1 with
    | true =>
      simp only [makeHoleLoop, hn, if_true, List.mem_append, List.mem_cons,
        List.not_mem_nil, or_false] at he
      rcases he with (h | h) | h
      · exact ⟨i, Or.inl h, le_rfl, by simp⟩
      · exact ⟨i, Or.inr h, le_rfl, by simp⟩
      · exact hrest h
    | false =>
      simp only [makeHoleLoop, hn, Bool.false_eq_true, if_false, List.mem_append,
        List.mem_singleton] at he
      rcases he with h | h
      · exact ⟨i, Or.inl h, le_rfl, by simp⟩
      · exact hrest h

/-- No call of the loop of `makeHole` is made twice. -/
theorem makeHoleLoop_nodup {G T : Type} (ops : SolidOps G T) (hole : ConvexPolygon G)
    (l : List T) (i : Nat) : (makeHoleLoop ops hole l i).2.Nodup := by
  induction l generalizing i with
  | nil => simp [makeHoleLoop]
  | cons s rest ih =>
    have hfresh : ∀ e, (e = SolidCall.nibble i ∨ e = SolidCall.updateGl i) →
        e ∉ (makeHoleLoop ops hole rest (i + 1)).2 := by
      intro e he hmem
      obtain ⟨k, hk, h1, _⟩ := makeHoleLoop_index ops hole rest (i + 1) e hmem
      rcases he with rfl | rfl <;> rcases hk with h | h <;> cases h <;> omega
    cases hn : (ops.nibble s hole).1 with
    | true =>
      simp only [makeHoleLoop, hn, if_true, List.cons_append, List.nil_append,
        List.nodup_cons, List.mem_cons, reduceCtorEq, false_or]
      exact ⟨hfresh _ (Or.inl rfl), hfresh _ (Or.inr rfl), ih (i + 1)⟩
    | false =>
      simp only [makeHoleLoop, hn, Bool.false_eq_true, if_false, List.cons_append,
        List.nil_append, List.nodup_cons]
      exact ⟨hfresh _ (Or.inl rfl), ih (i + 1)⟩

/-- The `nibble` calls of the loop of `makeHole`, in call order, are one per
solid in container order. -/
theorem makeHoleLoop_nibbles {G T : Type} (ops : SolidOps G T) (hole : ConvexPolygon G)
    (l : List T) (i : Nat) :
    (makeHoleLoop ops hole l i).2.filter SolidCall.isNibble
      = (List.range' i l.length).map SolidCall.nibble := by
  induction l generalizing i with
  | nil => rfl
  | cons s rest ih =>
    cases hn : (ops.nibble s hole).1 with
    | true =>
      simp only [makeHoleLoop, hn, if_true, List.cons_append, List.nil_append,
        List.length_cons, List.range'_succ, List.map_cons]
      rw [List.filter_cons_of_pos (by rfl), List.filter_cons_of_neg (by simp [SolidCall.isNibble]),
        ih (i + 1)]
    | false =>
      simp only [makeHoleLoop, hn, Bool.false_eq_true, if_false, List.cons_append,
        List.nil_append, List.length_cons, List.range'_succ, List.map_cons]
      rw [List.filter_cons_of_pos (by rfl), ih (i + 1)]

/-- An `updateGl` call of the loop of `makeHole` comes directly after the
`nibble` call on the same solid. -/
theorem makeHoleLoop_immediate {G T : Type} (ops : SolidOps G T) (hole : ConvexPolygon G)
    (l : List T) (i k : Nat) (hk : SolidCall.updateGl k ∈ (makeHoleLoop ops hole l i).2) :
    [SolidCall.nibble k, SolidCall.updateGl k] <:+: (makeHoleLoop ops hole l i).2 := by
  induction l generalizing i with
  | nil => simp [makeHoleLoop] at hk
  | cons s rest ih =>
    cases hn : (ops.nibble s hole).1 with
    | true =>
      simp only [makeHoleLoop, hn, if_true, List.mem_append, List.mem_cons,
        List.not_mem_nil, or_false, reduceCtorEq, false_or, SolidCall.updateGl.injEq] at hk ⊢
      rcases hk with rfl | h
      · exact ⟨[], (makeHoleLoop ops hole rest (k + 1)).2, by simp⟩
      · obtain ⟨pre, post, hpp⟩ := ih (i + 1) h
        exact ⟨[SolidCall.nibble i, SolidCall.updateGl i] ++ pre, post, by
          rw [← hpp]; simp⟩
    | false =>
      simp only [makeHoleLoop, hn, Bool.false_eq_true, if_false, List.mem_append,
        List.mem_singleton, reduceCtorEq, false_or] at hk ⊢
      obtain ⟨pre, post, hpp⟩ := ih (i + 1) hk
      exact ⟨[SolidCall.nibble i] ++ pre, post, by rw [← hpp]; simp⟩

/-- C21. `World.makeHole(hole)` calls `nibble(hole)` exactly once on every
dynamic solid, in container order, and on nothing else: all its calls are on
solids of `m_dyn_terrain`, and the static solids are left as they were.  It
calls `updateGl` within `makeHole`, directly after the `nibble` of the same
solid, on exactly those dynamic solids whose `nibble` returned true, once each,
and on no others.  In the world it leaves behind, every dynamic solid is the
state its `nibble` produced, with `updateGl` applied exactly when that `nibble`
returned true, and every other container is as before. -/
theorem makeHole_calls {G Q T : Type} (ops : SolidOps G T) (w : World G Q T)
    (hole : ConvexPolygon G) :
    (w.makeHole ops hole).2 = makeHoleSchedule ops hole w.m_dyn_terrain ∧
    (w.makeHole ops hole).2.filter SolidCall.isNibble
      = (List.range w.m_dyn_terrain.length).map SolidCall.nibble ∧
    (∀ k, k < w.m_dyn_terrain.length →
      (w.makeHole ops hole).2.count (SolidCall.nibble k) = 1) ∧
    (∀ e ∈ (w.makeHole ops hole).2, ∃ k, (e = SolidCall.nibble k ∨ e = SolidCall.updateGl k)
      ∧ k < w.m_dyn_terrain.length) ∧
    (w.makeHole ops hole).1.m_static_terrain = w.m_static_terrain ∧
    (∀ k, SolidCall.updateGl k ∈ (w.makeHole ops hole).2 ↔
      ∃ s, w.m_dyn_terrain[k]? = some s ∧ (ops.nibble s hole).1 = true) ∧
    (∀ k, SolidCall.updateGl k ∈ (w.makeHole ops hole).2 →
      (w.makeHole ops hole).2.count (SolidCall.updateGl k) = 1 ∧
      [SolidCall.nibble k, SolidCall.updateGl k] <:+: (w.makeHole ops hole).2) ∧
    (w.makeHole ops hole).1.m_dyn_terrain
      = w.m_dyn_terrain.map (fun s => if (ops.nibble s hole).1
          then ops.updateGl (ops.nibble s hole).2 else (ops.nibble s hole).2) ∧
    (∀ (k : Nat) (s : T), w.m_dyn_terrain[k]? = some s →
      ((ops.nibble s hole).1 = true →
        (w.makeHole ops hole).1.m_dyn_terrain[k]? = some (ops.updateGl (ops.nibble s hole).2)) ∧
      ((ops.nibble s hole).1 = false →
        (w.makeHole ops hole).1.m_dyn_terrain[k]? = some (ops.nibble s hole).2)) ∧
    (w.makeHole ops hole).1.m_ships = w.m_ships ∧
    (w.makeHole ops hole).1.m_projectiles = w.m_projectiles ∧
    (w.makeHole ops hole).1.m_zones = w.m_zones := by
  have hst : (w.makeHole ops hole).1.m_dyn_terrain
      = w.m_dyn_terrain.map (fun s => if (ops.nibble s hole).1
          then ops.updateGl (ops.nibble s hole).2 else (ops.nibble s hole).2) :=
    (makeHoleLoop_log ops hole w.m_dyn_terrain 0).2
  have hnd : (w.makeHole ops hole).2.Nodup := makeHoleLoop_nodup ops hole w.m_dyn_terrain 0
  have hfil : (w.makeHole ops hole).2.filter SolidCall.isNibble
      = (List.range w.m_dyn_terrain.length).map SolidCall.nibble := by
    have h := makeHoleLoop_nibbles ops hole w.m_dyn_terrain 0
    rw [← List.range_eq_range'] at h
    exact h
  refine ⟨(makeHoleLoop_log ops hole w.m_dyn_terrain 0).1, hfil, ?_, ?_, rfl, ?_, ?_, hst, ?_,
    rfl, rfl, rfl⟩
  · intro k hk
    apply List.count_eq_one_of_mem hnd
    have hm : SolidCall.nibble k ∈ (w.makeHole ops hole).2.filter SolidCall.isNibble := by
      rw [hfil]
      exact List.mem_map.mpr ⟨k, List.mem_range.mpr hk, rfl⟩
    exact (List.mem_filter.mp hm).1
  · intro e he
    obtain ⟨k, hk, _, h2⟩ := makeHoleLoop_index ops hole w.m_dyn_terrain 0 e he
    exact ⟨k, hk, by omega⟩
  · intro k
    have h := makeHoleLoop_updateGl_mem ops hole w.m_dyn_terrain 0 k
    simp only [Nat.sub_zero, Nat.zero_le, true_and] at h
    exact h
  · intro k hk
    exact ⟨List.count_eq_one_of_mem hnd hk,
      makeHoleLoop_immediate ops hole w.m_dyn_terrain 0 k hk⟩
  · intro k s hk
    rw [hst, List.getElem?_map, hk]
    constructor
    · intro ht
      simp only [Option.map_some', ht, if_true]
    · intro hf
      simp only [Option.map_some', hf, Bool.false_eq_true, if_false]

/-- C21 at the concrete world (dynamic solids `0` and `2`): one `nibble` per
dynamic solid in order, and `updateGl` only on the second one, whose `nibble`
returned true; the dynamic solids end as `0` (nothing to lose, not refreshed)
and `11` (one piece left, refreshed), the static solid as it was. -/
theorem makeHole_calls_witness :
    (exWorld.makeHole exOps exTriangle).2.filter SolidCall.isNibble
      = [SolidCall.nibble 0, SolidCall.nibble 1] ∧
    (exWorld.makeHole exOps exTriangle).2.count (SolidCall.nibble 1) = 1 ∧
    (exWorld.makeHole exOps exTriangle).2.count (SolidCall.updateGl 1) = 1 ∧
    (exWorld.makeHole exOps exTriangle).1.m_static_terrain = [1] ∧
    (exWorld.makeHole exOps exTriangle).1.m_dyn_terrain = [0, 11] := by
  have h := makeHole_calls exOps exWorld exTriangle
  have hu : SolidCall.updateGl 1 ∈ (exWorld.makeHole exOps exTriangle).2 :=
    (h.2.2.2.2.2.1 1).mpr ⟨2, rfl, rfl⟩
  exact ⟨h.2.1, h.2.2.1 1 (by simp [exWorld]), (h.2.2.2.2.2.2.1 1 hu).1, h.2.2.2.2.1,
    h.2.2.2.2.2.2.2.1.trans rfl⟩

/-- C22 at the default-constructed polygon. Its `vertexCount()` is 0, so the
documented index range is `[-1 .. 0]`; both indices pass the assertion, and both
read the empty vertex vector outside its bounds: `m_points[-1]` for `-1` and
`m_points[0]` for `0`. -/
theorem vertex_default_out_of_bounds :
    (ConvexPolygon.default : ConvexPolygon ℚ).vertexCount = 0 ∧
    (ConvexPolygon.default : ConvexPolygon ℚ).vertex (-1) = .error .outOfBounds ∧
    (ConvexPolygon.default : ConvexPolygon ℚ).vertex 0 = .error .outOfBounds ∧
    (ConvexPolygon.default : ConvexPolygon ℚ).vertex 1 = .error .assertion ∧
    ¬ (∀ i : Int, -1 ≤ i → i ≤ (ConvexPolygon.default : ConvexPolygon ℚ).vertexCount →
        ∃ v, (ConvexPolygon.default : ConvexPolygon ℚ).vertex i = .ok v) := by
  have h0 : (ConvexPolygon.default : ConvexPolygon ℚ).vertex 0 = .error .outOfBounds := rfl
  refine ⟨rfl, rfl, h0, rfl, ?_⟩
  intro hall
  obtain ⟨v, hv⟩ := hall 0 (by norm_num) (by simp [ConvexPolygon.vertexCount, ConvexPolygon.default])
  rw [h0] at hv
  cases hv

/-- Swapping the two bodies negates the collision normal and keeps the squared
distance, the summed radius and the impact speed. -/
theorem checkCollision_swap_facts (sqrt : F → F) (a b : Physical F) :
    dot (b.position - a.position) (b.position - a.position)
      = dot (a.position - b.position) (a.position - b.position) ∧
    (b.radius + a.radius) * (b.radius + a.radius)
      = (a.radius + b.radius) * (a.radius + b.radius) ∧
    normalize sqrt (b.position - a.position) = -(normalize sqrt (a.position - b.position)) ∧
    dot (b.velocity - a.velocity) (normalize sqrt (b.position - a.position))
      = dot (a.velocity - b.velocity) (normalize sqrt (a.position - b.position)) := by
  have hdd : dot (b.position - a.position) (b.position - a.position)
      = dot (a.position - b.position) (a.position - b.position) := by
    simp only [dot, Vec2.sub_x, Vec2.sub_y]
    ring
  have hn : normalize sqrt (b.position - a.position)
      = -(normalize sqrt (a.position - b.position)) := by
    unfold Vec2.normalize
    rw [hdd]
    ext <;> simp only [Vec2.mulS_x, Vec2.mulS_y, Vec2.neg_x, Vec2.neg_y, Vec2.sub_x,
      Vec2.sub_y] <;> ring
  refine ⟨hdd, by ring, hn, ?_⟩
  rw [hn]
  simp only [dot, Vec2.sub_x, Vec2.sub_y, Vec2.neg_x, Vec2.neg_y]
  ring

/-- C23. `checkCollision` is symmetric in its two bodies: for bodies with
distinct positions and positive masses, `a.checkCollision(b)` and
`b.checkCollision(a)` return the same boolean, leave `a` in the same state and
leave `b` in the same state, so each accumulator receives the same change
whichever body is the receiver. -/
theorem checkCollision_symmetric (sqrt : F → F) (a b : Physical F)
    (_hpos : a.position ≠ b.position) (_hma : 0 < a.mass) (_hmb : 0 < b.mass) :
    (a.checkCollision sqrt b).ret = (b.checkCollision sqrt a).ret ∧
    (a.checkCollision sqrt b).self = (b.checkCollision sqrt a).other ∧
    (a.checkCollision sqrt b).other = (b.checkCollision sqrt a).self ∧
    (a.checkCollision sqrt b).self.impulse = (b.checkCollision sqrt a).other.impulse ∧
    (a.checkCollision sqrt b).other.impulse = (b.checkCollision sqrt a).self.impulse := by
  obtain ⟨hdd, hr, hn, hs⟩ := checkCollision_swap_facts sqrt a b
  have e3 : ∀ v : Vec2 F, -(-v) = v := by
    intro v
    ext <;> simp only [Vec2.neg_x, Vec2.neg_y, neg_neg]
  have e2 : ∀ (J : F) (n : Vec2 F), sMul J (-n) = -(sMul J n) := by
    intro J n
    ext <;> simp only [Vec2.sMul_x, Vec2.sMul_y, Vec2.neg_x, Vec2.neg_y] <;> ring
  have key : (a.checkCollision sqrt b).ret = (b.checkCollision sqrt a).ret ∧
      (a.checkCollision sqrt b).self = (b.checkCollision sqrt a).other ∧
      (a.checkCollision sqrt b).other = (b.checkCollision sqrt a).self := by
    by_cases h : dot (a.position - b.position) (a.position - b.position)
        > (a.radius + b.radius) * (a.radius + b.radius)
    · have h2 : dot (b.position - a.position) (b.position - a.position)
          > (b.radius + a.radius) * (b.radius + a.radius) := by rw [hdd, hr]; exact h
      rw [checkCollision_far sqrt a b h, checkCollision_far sqrt b a h2]
      exact ⟨rfl, rfl, rfl⟩
    · have h2 : ¬ dot (b.position - a.position) (b.position - a.position)
          > (b.radius + a.radius) * (b.radius + a.radius) := by rw [hdd, hr]; exact h
      by_cases hsp : dot (a.velocity - b.velocity)
          (normalize sqrt (a.position - b.position)) > 0
      · have hsp2 : dot (b.velocity - a.velocity)
            (normalize sqrt (b.position - a.position)) > 0 := by rw [hs]; exact hsp
        rw [checkCollision_separating sqrt a b h hsp,
          checkCollision_separating sqrt b a h2 hsp2]
        exact ⟨rfl, rfl, rfl⟩
      · have hsp2 : ¬ dot (b.velocity - a.velocity)
            (normalize sqrt (b.position - a.position)) > 0 := by rw [hs]; exact hsp
        rw [checkCollision_hit sqrt a b h hsp, checkCollision_hit sqrt b a h2 hsp2, hs, hn,
          add_comm b.imass a.imass]
        simp only [e2, e3, and_self]
  exact ⟨key.1, key.2.1, key.2.2, by rw [key.2.1], by rw [key.2.2]⟩

/-- C23 at the head-on pair `exA`, `exB`: whichever body is the receiver, the
check returns true, `exA` receives `(11.7, 15.6)` and `exB` the opposite. -/
theorem checkCollision_symmetric_witness :
    (exA.checkCollision ratSqrt exB).ret = (exB.checkCollision ratSqrt exA).ret ∧
    (exA.checkCollision ratSqrt exB).self.impulse
      = (exB.checkCollision ratSqrt exA).other.impulse ∧
    (exA.checkCollision ratSqrt exB).other.impulse
      = (exB.checkCollision ratSqrt exA).self.impulse :=
  have h := checkCollision_symmetric ratSqrt exA exB
    (by simp [exA, exB, Physical.position])
    (by norm_num [exA, Physical.mass]) (by norm_num [exB, Physical.mass])
  ⟨h.1, h.2.2.2.1, h.2.2.2.2⟩

/-! ### Accumulators during `World::step` -/

theorem vec_add_assoc (x y z : Vec2 F) : x + y + z = x + (y + z) := by
  ext <;> simp only [Vec2.add_x, Vec2.add_y] <;> ring

theorem vec_zero_add (x : Vec2 F) : 0 + x = x := by
  ext <;> simp

theorem vec_add_zero (x : Vec2 F) : x + 0 = x := by
  ext <;> simp

theorem impulseSum_append (l : List (Vec2 F)) (x : Vec2 F) :
    impulseSum (l ++ [x]) = impulseSum l + x := by
  induction l with
  | nil => simp only [List.nil_append, impulseSum, vec_add_zero, vec_zero_add]
  | cons y rest ih =>
    show y + impulseSum (rest ++ [x]) = y + impulseSum rest + x
    rw [ih, vec_add_assoc]

theorem physical_addImpulse_add (p : Physical F) (x y : Vec2 F) :
    (p.addImpulse x).addImpulse y = p.addImpulse (x + y) := by
  cases p
  simp only [Physical.addImpulse, vec_add_assoc]

theorem ship_addImpulse_add (s : Ship F) (x y : Vec2 F) :
    (s.addImpulse x).addImpulse y = s.addImpulse (x + y) := by
  cases s
  simp only [Ship.addImpulse, physical_addImpulse_add]

/-- What `checkCollision` does to the two bodies, in terms of `checkDelta`. -/
theorem checkCollision_checkDelta (sqrt : F → F) (a b : Physical F) :
    (a.checkCollision sqrt b).self = a.addImpulse (checkDelta sqrt a b) ∧
    (a.checkCollision sqrt b).other = b.addImpulse (-(checkDelta sqrt a b)) := by
  obtain ⟨δ, hself, hother⟩ := checkCollision_delta sqrt a b
  have hd : checkDelta sqrt a b = δ := by
    simp only [checkDelta, hself, Physical.impulse, Physical.addImpulse]
    ext <;> simp
  rw [hd]
  exact ⟨hself, hother⟩

/-- An impulse already added to the argument passes through the check. -/
theorem checkCollision_addImpulse_other (sqrt : F → F) (a c : Physical F) (i : Vec2 F) :
    a.checkCollision sqrt (c.addImpulse i) =
      ⟨(a.checkCollision sqrt c).ret, (a.checkCollision sqrt c).self,
       (a.checkCollision sqrt c).other.addImpulse i⟩ := by
  by_cases h : dot (a.position - c.position) (a.position - c.position)
      > (a.radius + c.radius) * (a.radius + c.radius)
  · rw [checkCollision_far sqrt a c h, checkCollision_far sqrt a (c.addImpulse i) h]
  · by_cases hs : dot (a.velocity - c.velocity)
        (normalize sqrt (a.position - c.position)) > 0
    · rw [checkCollision_separating sqrt a c h hs,
        checkCollision_separating sqrt a (c.addImpulse i) h hs]
    · rw [checkCollision_hit sqrt a c h hs, checkCollision_hit sqrt a (c.addImpulse i) h hs]
      simp only [Collision.mk.injEq, true_and]
      exact ⟨rfl, addImpulse_comm _ _ _⟩

/-- The impulse of a check does not depend on what the two accumulators
hold. -/
theorem checkDelta_addImpulse (sqrt : F → F) (a b : Physical F) (x y : Vec2 F) :
    checkDelta sqrt (a.addImpulse x) (b.addImpulse y) = checkDelta sqrt a b := by
  simp only [checkDelta, checkCollision_addImpulse, checkCollision_addImpulse_other]
  simp only [Physical.impulse, Physical.addImpulse]
  ext <;> simp

theorem deltaOf_addImpulse (sqrt : F → F) (a : Ship F) (b : Option (Ship F)) (x y : Vec2 F) :
    deltaOf sqrt (some (a.addImpulse x)) (b.map (fun s => s.addImpulse y))
      = deltaOf sqrt (some a) b := by
  cases b with
  | none => rfl
  | some s => exact checkDelta_addImpulse sqrt a.m_physics s.m_physics x y

/-- Element access after `modifyAt`. -/
theorem modifyAt_getElem? {α : Type} (f : α → α) (l : List α) (i k : Nat) :
    (modifyAt f l i)[k]? = if k = i then (l[k]?).map f else l[k]? := by
  induction l generalizing i k with
  | nil => simp [modifyAt]
  | cons x xs ih =>
    cases i with
    | zero =>
      cases k with
      | zero => simp [modifyAt]
      | succ k => simp [modifyAt]
    | succ i =>
      cases k with
      | zero => simp [modifyAt]
      | succ k => simp [modifyAt, ih]

theorem modifyAt_length {α : Type} (f : α → α) (l : List α) (i : Nat) :
    (modifyAt f l i).length = l.length := by
  induction l generalizing i with
  | nil => rfl
  | cons x xs ih =>
    cases i with
    | zero => rfl
    | succ i => simp [modifyAt, ih]

/-- One collision check of `World::step` on the ship container: the receiver
gains the impulse of the check, the argument its opposite, nothing else
changes. -/
theorem collideShips_spec (sqrt : F → F) (i j : Nat) (l : List (Ship F)) (a b : Ship F)
    (hi : l[i]? = some a) (hj : l[j]? = some b) (hij : i ≠ j) :
    (collideShips sqrt i j l).length = l.length ∧
    (collideShips sqrt i j l)[i]?
      = some (a.addImpulse (deltaOf sqrt (some a) (some b))) ∧
    (collideShips sqrt i j l)[j]?
      = some (b.addImpulse (-(deltaOf sqrt (some a) (some b)))) ∧
    (∀ k, k ≠ i → k ≠ j → (collideShips sqrt i j l)[k]? = l[k]?) := by
  obtain ⟨hs, ho⟩ := checkCollision_checkDelta sqrt a.m_physics b.m_physics
  have hil : i < l.length := (List.getElem?_eq_some.mp hi).1
  have hjl : j < l.length := (List.getElem?_eq_some.mp hj).1
  have e : collideShips sqrt i j l
      = (l.set i (a.addImpulse (deltaOf sqrt (some a) (some b)))).set j
          (b.addImpulse (-(deltaOf sqrt (some a) (some b)))) := by
    simp only [collideShips, hi, hj, hs, ho, Ship.addImpulse, deltaOf]
  rw [e]
  refine ⟨by simp, ?_, ?_, ?_⟩
  · rw [List.getElem?_set_ne (Ne.symm hij), List.getElem?_set_self hil]
  · rw [List.getElem?_set_self (by simpa using hjl)]
  · intro k hki hkj
    rw [List.getElem?_set_ne (Ne.symm hkj), List.getElem?_set_ne (Ne.symm hki)]

/-- The inner loop of `World::step` for the receiver `i` over the arguments
`js`: the receiver gains the sum of the impulses of its checks, each argument
the opposite of the impulse of its check, nothing else changes. -/
theorem collideLoop_spec (sqrt : F → F) (i : Nat) (js : List Nat) (hnd : js.Nodup)
    (l : List (Ship F)) (a : Ship F) (hi : l[i]? = some a)
    (hjs : ∀ j ∈ js, i ≠ j ∧ j < l.length) :
    (js.foldl (fun l j => collideShips sqrt i j l) l).length = l.length ∧
    (js.foldl (fun l j => collideShips sqrt i j l) l)[i]?
      = some (a.addImpulse (impulseSum (js.map (fun j => deltaOf sqrt (some a) (l[j]?))))) ∧
    (∀ j ∈ js, (js.foldl (fun l j => collideShips sqrt i j l) l)[j]?
      = (l[j]?).map (fun s => s.addImpulse (-(deltaOf sqrt (some a) (l[j]?))))) ∧
    (∀ k, k ≠ i → k ∉ js → (js.foldl (fun l j => collideShips sqrt i j l) l)[k]? = l[k]?) := by
  induction js generalizing l a with
  | nil =>
    refine ⟨rfl, ?_, ?_, ?_⟩
    · simp only [List.foldl_nil, List.map_nil, impulseSum, hi, Option.some.injEq]
      cases a
      simp only [Ship.addImpulse, Physical.addImpulse, vec_add_zero]
    · intro j hj
      cases hj
    · intro k _ _
      rfl
  | cons j0 rest ih =>
    obtain ⟨hij0, hj0l⟩ := hjs j0 (List.mem_cons_self _ _)
    obtain ⟨b, hb⟩ : ∃ b, l[j0]? = some b := ⟨l[j0], List.getElem?_eq_getElem hj0l⟩
    obtain ⟨hlen, hsi, hsj, hsk⟩ := collideShips_spec sqrt i j0 l a b hi hb hij0
    have hnd' : rest.Nodup := (List.nodup_cons.mp hnd).2
    have hj0rest : j0 ∉ rest := (List.nodup_cons.mp hnd).1
    have hjs' : ∀ j ∈ rest, i ≠ j ∧ j < (collideShips sqrt i j0 l).length := by
      intro j hj
      rw [hlen]
      exact hjs j (List.mem_cons_of_mem _ hj)
    obtain ⟨h1, h2, h3, h4⟩ := ih hnd' (collideShips sqrt i j0 l)
      (a.addImpulse (deltaOf sqrt (some a) (some b))) hsi hjs'
    -- the container seen by the remaining checks agrees with `l` on their arguments
    have hsame : ∀ j ∈ rest, (collideShips sqrt i j0 l)[j]? = l[j]? := by
      intro j hj
      apply hsk j (Ne.symm (hjs j (List.mem_cons_of_mem _ hj)).1)
      intro hjj
      exact hj0rest (hjj ▸ hj)
    have hdel : ∀ j ∈ rest,
        deltaOf sqrt (some (a.addImpulse (deltaOf sqrt (some a) (some b))))
            ((collideShips sqrt i j0 l)[j]?)
          = deltaOf sqrt (some a) (l[j]?) := by
      intro j hj
      rw [hsame j hj]
      have h := deltaOf_addImpulse sqrt a (l[j]?) (deltaOf sqrt (some a) (some b)) 0
      have hid : (l[j]?).map (fun s => s.addImpulse 0) = l[j]? := by
        cases l[j]? with
        | none => rfl
        | some s =>
          cases s
          simp only [Option.map_some', Ship.addImpulse, Physical.addImpulse, vec_add_zero]
      rw [hid] at h
      exact h
    rw [List.foldl_cons]
    refine ⟨by rw [h1, hlen], ?_, ?_, ?_⟩
    · rw [h2, ship_addImpulse_add, List.map_cons, impulseSum, hb]
      rw [List.map_congr_left hdel]
    · intro j hj
      rcases List.mem_cons.mp hj with rfl | hjr
      · rw [h4 j (Ne.symm hij0) hj0rest, hsj, hb]
        rfl
      · rw [h3 j hjr, hdel j hjr, hsame j hjr]
    · intro k hki hk
      have hk0 : k ≠ j0 := fun h => hk (h ▸ List.mem_cons_self _ _)
      have hkr : k ∉ rest := fun h => hk (List.mem_cons_of_mem _ h)
      rw [h4 k hki hkr, hsk k hki hk0]

theorem modifyAt_modifyAt {α : Type} (f g : α → α) (l : List α) (i : Nat) :
    modifyAt g (modifyAt f l i) i = modifyAt (fun x => g (f x)) l i := by
  induction l generalizing i with
  | nil => rfl
  | cons x xs ih =>
    cases i with
    | zero => rfl
    | succ i => simp [modifyAt, ih]

/-- The ship container after one iteration of the ship loop: hook and `step()`
on ship `i`, then its collision checks. -/
theorem shipIteration_ships {Q T : Type} (sqrt : F → F)
    (shipStep : World F Q T → Ship F → Ship F) (n i : Nat)
    (st : World F Q T × List StepEvent) :
    (World.shipIteration sqrt shipStep n i st).1.m_ships
      = (List.range' (i + 1) (n - (i + 1))).foldl (fun l j => collideShips sqrt i j l)
          (modifyAt (hookAndStep sqrt shipStep st.1) st.1.m_ships i) := by
  have inner : ∀ (js : List Nat) (s : World F Q T × List StepEvent),
      (js.foldl (fun s j =>
          ({ s.1 with m_ships := collideShips sqrt i j s.1.m_ships },
           s.2 ++ [StepEvent.check (BodyRef.ship i) (BodyRef.ship j)])) s).1.m_ships
        = js.foldl (fun l j => collideShips sqrt i j l) s.1.m_ships := by
    intro js
    induction js with
    | nil => intro s; rfl
    | cons j rest ih =>
      intro s
      rw [List.foldl_cons, List.foldl_cons, ih]
  unfold World.shipIteration
  simp only []
  rw [inner, modifyAt_modifyAt]
  rfl

theorem afterShips_succ {Q T : Type} (sqrt : F → F)
    (shipStep : World F Q T → Ship F → Ship F) (w : World F Q T) (m : Nat) :
    w.afterShips sqrt shipStep (m + 1)
      = World.shipIteration sqrt shipStep w.m_ships.length m (w.afterShips sqrt shipStep m) := by
  simp only [World.afterShips, List.range_succ, List.foldl_append, List.foldl_cons,
    List.foldl_nil]

/-- The ship container between the iterations of the ship loop.  After `m`
iterations the ships with index below `m` are as their own iteration left them:
stepped, then holding the impulses of their own checks.  The other ships are as
at the start of `World::step`, plus the impulses received as arguments of the
checks made so far. -/
theorem afterShips_ships {Q T : Type} (sqrt : F → F)
    (shipStep : World F Q T → Ship F → Ship F) (w : World F Q T) (m : Nat)
    (hm : m ≤ w.m_ships.length) :
    (w.afterShips sqrt shipStep m).1.m_ships.length = w.m_ships.length ∧
    ∀ k, (w.afterShips sqrt shipStep m).1.m_ships[k]?
      = if k < m then
          (w.steppedShip sqrt shipStep k).map
            (fun s => s.addImpulse (impulseSum (w.outgoing sqrt shipStep k)))
        else
          (w.m_ships[k]?).map
            (fun s => s.addImpulse (impulseSum (w.incoming sqrt shipStep m k))) := by
  induction m with
  | zero =>
    refine ⟨rfl, ?_⟩
    intro k
    simp only [World.afterShips, List.range_zero, List.foldl_nil, Nat.not_lt_zero, if_false,
      World.incoming, List.map_nil, impulseSum]
    cases w.m_ships[k]? with
    | none => rfl
    | some s =>
      cases s
      simp only [Option.map_some', Ship.addImpulse, Physical.addImpulse, vec_add_zero]
  | succ m ih =>
    obtain ⟨hlen, hpt⟩ := ih (by omega)
    have hmn : m < w.m_ships.length := by omega
    -- the ship `m` before its iteration, and after hook and step
    obtain ⟨s0, hs0⟩ : ∃ s0, w.m_ships[m]? = some s0 :=
      ⟨w.m_ships[m], List.getElem?_eq_getElem hmn⟩
    have hLm : (w.afterShips sqrt shipStep m).1.m_ships[m]?
        = some (s0.addImpulse (impulseSum (w.incoming sqrt shipStep m m))) := by
      rw [hpt m, if_neg (lt_irrefl m), hs0]
      rfl
    have hP : w.steppedShip sqrt shipStep m
        = some (hookAndStep sqrt shipStep (w.afterShips sqrt shipStep m).1
            (s0.addImpulse (impulseSum (w.incoming sqrt shipStep m m)))) := by
      simp only [World.steppedShip, hLm, Option.map_some']
    generalize hPdef : hookAndStep sqrt shipStep (w.afterShips sqrt shipStep m).1
        (s0.addImpulse (impulseSum (w.incoming sqrt shipStep m m))) = Pm at hP
    -- the container handed to the inner loop
    have hL2 : ∀ k, (modifyAt (hookAndStep sqrt shipStep (w.afterShips sqrt shipStep m).1)
        (w.afterShips sqrt shipStep m).1.m_ships m)[k]?
          = if k = m then some Pm else (w.afterShips sqrt shipStep m).1.m_ships[k]? := by
      intro k
      rw [modifyAt_getElem?]
      by_cases hk : k = m
      · subst hk
        simp only [if_true, hLm, Option.map_some', hPdef]
      · simp only [if_neg hk]
    have hL2len : (modifyAt (hookAndStep sqrt shipStep (w.afterShips sqrt shipStep m).1)
        (w.afterShips sqrt shipStep m).1.m_ships m).length = w.m_ships.length := by
      rw [modifyAt_length, hlen]
    have hjs : ∀ j ∈ List.range' (m + 1) (w.m_ships.length - (m + 1)),
        m ≠ j ∧ j < (modifyAt (hookAndStep sqrt shipStep (w.afterShips sqrt shipStep m).1)
          (w.afterShips sqrt shipStep m).1.m_ships m).length := by
      intro j hj
      rw [List.mem_range'_1] at hj
      rw [hL2len]
      omega
    obtain ⟨h1, h2, h3, h4⟩ := collideLoop_spec sqrt m
      (List.range' (m + 1) (w.m_ships.length - (m + 1))) (List.nodup_range' _ _)
      _ Pm (by rw [hL2 m, if_pos rfl]) hjs
    -- the arguments of the checks are the original ships with earlier impulses
    have harg : ∀ j, m < j →
        (modifyAt (hookAndStep sqrt shipStep (w.afterShips sqrt shipStep m).1)
          (w.afterShips sqrt shipStep m).1.m_ships m)[j]?
          = (w.m_ships[j]?).map
              (fun s => s.addImpulse (impulseSum (w.incoming sqrt shipStep m j))) := by
      intro j hj
      rw [hL2 j, if_neg (by omega), hpt j, if_neg (by omega)]
    have hdel : ∀ j, m < j →
        deltaOf sqrt (some Pm)
          ((modifyAt (hookAndStep sqrt shipStep (w.afterShips sqrt shipStep m).1)
            (w.afterShips sqrt shipStep m).1.m_ships m)[j]?)
          = deltaOf sqrt (w.steppedShip sqrt shipStep m) (w.m_ships[j]?) := by
      intro j hj
      rw [harg j hj, hP]
      have h := deltaOf_addImpulse sqrt Pm (w.m_ships[j]?) 0
        (impulseSum (w.incoming sqrt shipStep m j))
      have hz : Pm.addImpulse 0 = Pm := by
        cases Pm
        simp only [Ship.addImpulse, Physical.addImpulse, vec_add_zero]
      rw [hz] at h
      exact h
    rw [afterShips_succ, shipIteration_ships]
    refine ⟨by rw [h1, hL2len], ?_⟩
    intro k
    rcases Nat.lt_trichotomy k m with hkm | hkm | hkm
    · -- an earlier ship: untouched
      rw [h4 k (by omega) (by rw [List.mem_range'_1]; omega), hL2 k, if_neg (by omega),
        hpt k, if_pos hkm, if_pos (by omega)]
    · -- the ship of this iteration
      subst hkm
      rw [h2, if_pos (by omega), hP, Option.map_some']
      congr 2
      simp only [World.outgoing]
      congr 1
      apply List.map_congr_left
      intro j hj
      rw [List.mem_range'_1] at hj
      rw [hdel j (by omega), hP]
    · rw [if_neg (by omega)]
      by_cases hkn : k < w.m_ships.length
      · -- a later ship: argument of the check `(m, k)`
        have hkin : k ∈ List.range' (m + 1) (w.m_ships.length - (m + 1)) := by
          rw [List.mem_range'_1]; omega
        rw [h3 k hkin, hdel k hkm, harg k hkm]
        obtain ⟨sk, hsk⟩ : ∃ sk, w.m_ships[k]? = some sk :=
          ⟨w.m_ships[k], List.getElem?_eq_getElem hkn⟩
        simp only [hsk, Option.map_some', ship_addImpulse_add, World.incoming,
          List.range_succ, List.map_append, List.map_cons, List.map_nil, impulseSum_append]
      · -- outside the container
        have hnone : w.m_ships[k]? = none := List.getElem?_eq_none (by omega)
        rw [h4 k (by omega) (by rw [List.mem_range'_1]; omega), hL2 k, if_neg (by omega),
          hpt k, if_neg (by omega), hnone]
        rfl

/-- The projectile loop of `World::step` leaves the ship container alone. -/
theorem step_ships {Q T : Type} (sqrt : F → F)
    (shipStep : World F Q T → Ship F → Ship F) (w : World F Q T) :
    (w.step sqrt shipStep).1.m_ships
      = (w.afterShips sqrt shipStep w.m_ships.length).1.m_ships := by
  have projs : ∀ (ks : List Nat) (st : World F Q T × List StepEvent),
      (ks.foldl (fun st k => World.projectileIteration sqrt k st) st).1.m_ships
        = st.1.m_ships := by
    intro ks
    induction ks with
    | nil => intro st; rfl
    | cons k rest ih =>
      intro st
      rw [List.foldl_cons, ih]
      rfl
  unfold World.step
  simp only []
  rw [projs]
  rfl

/-- Running `modifyAt f` over the indices `0 .. m-1` of a container updates
exactly the first `m` elements. -/
theorem modifyAt_range_getElem? {α : Type} (f : α → α) (l : List α) (m k : Nat) :
    ((List.range m).foldl (fun acc j => modifyAt f acc j) l)[k]?
      = if k < m then (l[k]?).map f else l[k]? := by
  induction m with
  | zero => simp
  | succ m ih =>
    rw [List.range_succ, List.foldl_append, List.foldl_cons, List.foldl_nil,
      modifyAt_getElem?, ih]
    by_cases hk : k = m
    · subst hk
      simp
    · by_cases hlt : k < m
      · simp [hk, hlt, Nat.lt_succ_of_lt hlt]
      · have h2 : ¬ k < m + 1 := by omega
        simp [hk, hlt, h2]

theorem modifyAt_range_length {α : Type} (f : α → α) (l : List α) (m : Nat) :
    ((List.range m).foldl (fun acc j => modifyAt f acc j) l).length = l.length := by
  induction m with
  | zero => rfl
  | succ m ih =>
    rw [List.range_succ, List.foldl_append, List.foldl_cons, List.foldl_nil,
      modifyAt_length, ih]

/-- Running `modifyAt f` over all indices of a container maps `f` over it. -/
theorem modifyAt_range_all {α : Type} (f : α → α) (l : List α) :
    (List.range l.length).foldl (fun acc j => modifyAt f acc j) l = l.map f := by
  apply List.ext_getElem?
  intro k
  rw [modifyAt_range_getElem?, List.getElem?_map]
  by_cases hk : k < l.length
  · simp [hk]
  · have hnone : l[k]? = none := List.getElem?_eq_none (by omega)
    simp [hk, hnone]

/-- The ship loop of `World::step` leaves the projectile container alone. -/
theorem afterShips_projectiles {Q T : Type} (sqrt : F → F)
    (shipStep : World F Q T → Ship F → Ship F) (w : World F Q T) (m : Nat) :
    (w.afterShips sqrt shipStep m).1.m_projectiles = w.m_projectiles := by
  induction m with
  | zero => rfl
  | succ m ih =>
    rw [afterShips_succ, (shipIteration_log sqrt shipStep _ m _).2, ih]

/-- The projectile container after `World::step`: every projectile stepped. -/
theorem step_projectiles {Q T : Type} (sqrt : F → F)
    (shipStep : World F Q T → Ship F → Ship F) (w : World F Q T) :
    (w.step sqrt shipStep).1.m_projectiles
      = w.m_projectiles.map (fun q => (⟨q.m_physics.step sqrt⟩ : Projectile F)) := by
  have projs : ∀ (ks : List Nat) (st : World F Q T × List StepEvent),
      (ks.foldl (fun st k => World.projectileIteration sqrt k st) st).1.m_projectiles
        = ks.foldl (fun acc j =>
            modifyAt (fun q => (⟨q.m_physics.step sqrt⟩ : Projectile F)) acc j)
            st.1.m_projectiles := by
    intro ks
    induction ks with
    | nil => intro st; rfl
    | cons k rest ih =>
      intro st
      rw [List.foldl_cons, List.foldl_cons, ih]
      rfl
  have hstep : (w.step sqrt shipStep).1.m_projectiles
      = ((List.range (w.afterShips sqrt shipStep w.m_ships.length).1.m_projectiles.length).foldl
          (fun st k => World.projectileIteration sqrt k st)
          (w.afterShips sqrt shipStep w.m_ships.length)).1.m_projectiles := rfl
  rw [hstep, projs, afterShips_projectiles, modifyAt_range_all]

/-- C20. In a world with `n` ships and `m` projectiles, `World.step` integrates
every ship exactly once and every projectile exactly once, and calls
`checkCollision` exactly once for each pair of ship indices `i < j`, with the
ship of lower index as the receiver, `n * (n - 1) / 2` calls in all, and for no
other pair: every collision check is between two ships, none involves a
projectile.  No call is made twice.

The world it leaves behind shows the same.  Every projectile is its old self
with `step()` applied once to its physics and nothing else.  The ship with
index `i` was, when its turn came, its old self plus the impulses of the
checks `(k, i)`, `k < i`, of which it was the argument; its hook and one
`step()` were applied to that; and it ends as the result plus the impulses
of the checks `(i, j)`, `j > i`, of which it was the receiver.  The impulse of
a check is what `checkCollision` adds to the receiver, the argument getting
the opposite. -/
theorem step_schedule {Q T : Type} (sqrt : F → F)
    (shipStep : World F Q T → Ship F → Ship F) (w : World F Q T) :
    (∀ i, i < w.m_ships.length →
      (w.step sqrt shipStep).2.count (StepEvent.integrate (BodyRef.ship i)) = 1) ∧
    (∀ k, k < w.m_projectiles.length →
      (w.step sqrt shipStep).2.count (StepEvent.integrate (BodyRef.projectile k)) = 1) ∧
    (∀ i j, i < j → j < w.m_ships.length →
      (w.step sqrt shipStep).2.count (StepEvent.check (BodyRef.ship i) (BodyRef.ship j)) = 1) ∧
    (∀ a b, StepEvent.check a b ∈ (w.step sqrt shipStep).2 →
      ∃ i j, a = BodyRef.ship i ∧ b = BodyRef.ship j ∧ i < j ∧ j < w.m_ships.length) ∧
    (w.step sqrt shipStep).2.countP StepEvent.isCheck
      = w.m_ships.length * (w.m_ships.length - 1) / 2 ∧
    (∀ b, StepEvent.integrate b ∈ (w.step sqrt shipStep).2 →
      (∃ i, b = BodyRef.ship i ∧ i < w.m_ships.length) ∨
      (∃ k, b = BodyRef.projectile k ∧ k < w.m_projectiles.length)) ∧
    (w.step sqrt shipStep).2.Nodup ∧
    (w.step sqrt shipStep).1.m_projectiles
      = w.m_projectiles.map (fun q => (⟨q.m_physics.step sqrt⟩ : Projectile F)) ∧
    (w.step sqrt shipStep).1.m_ships.length = w.m_ships.length ∧
    (∀ i, i < w.m_ships.length →
      ∃ s0, w.m_ships[i]? = some s0 ∧
        (w.afterShips sqrt shipStep i).1.m_ships[i]?
          = some (s0.addImpulse (impulseSum (w.incoming sqrt shipStep i i))) ∧
        w.steppedShip sqrt shipStep i
          = some (hookAndStep sqrt shipStep (w.afterShips sqrt shipStep i).1
              (s0.addImpulse (impulseSum (w.incoming sqrt shipStep i i)))) ∧
        (w.step sqrt shipStep).1.m_ships[i]?
          = some ((hookAndStep sqrt shipStep (w.afterShips sqrt shipStep i).1
              (s0.addImpulse (impulseSum (w.incoming sqrt shipStep i i)))).addImpulse
                (impulseSum (w.outgoing sqrt shipStep i)))) ∧
    (∀ a b : Physical F,
      (a.checkCollision sqrt b).self = a.addImpulse (checkDelta sqrt a b) ∧
      (a.checkCollision sqrt b).other = b.addImpulse (-(checkDelta sqrt a b))) := by
  obtain ⟨h1, h2, h3, h4, h5, h6, h7⟩ := step_log_counts sqrt shipStep w
  obtain ⟨hlen, hafter⟩ := afterShips_ships sqrt shipStep w w.m_ships.length le_rfl
  refine ⟨h1, h2, h3, h4, h5, h6, h7, step_projectiles sqrt shipStep w, ?_, ?_,
    checkCollision_checkDelta sqrt⟩
  · rw [step_ships, hlen]
  · intro i hi
    obtain ⟨s0, hs0⟩ : ∃ s0, w.m_ships[i]? = some s0 :=
      ⟨w.m_ships[i], List.getElem?_eq_getElem hi⟩
    obtain ⟨_, hbefore⟩ := afterShips_ships sqrt shipStep w i (by omega)
    have hLi : (w.afterShips sqrt shipStep i).1.m_ships[i]?
        = some (s0.addImpulse (impulseSum (w.incoming sqrt shipStep i i))) := by
      rw [hbefore i, if_neg (lt_irrefl i), hs0]
      rfl
    have hP : w.steppedShip sqrt shipStep i
        = some (hookAndStep sqrt shipStep (w.afterShips sqrt shipStep i).1
            (s0.addImpulse (impulseSum (w.incoming sqrt shipStep i i)))) := by
      simp only [World.steppedShip, hLi, Option.map_some']
    refine ⟨s0, hs0, hLi, hP, ?_⟩
    rw [step_ships, hafter i, if_pos hi, hP]
    rfl

/-- C20 at the concrete world of three ships and one projectile: three
collision checks, the pair `(0, 2)` checked once with ship 0 as the receiver,
the projectile integrated once and left as `exD` stepped, three ships left,
ship 0 left as `exA` after its hook and its `step()` plus the impulses of its
two checks as the receiver. -/
theorem step_schedule_witness :
    (exWorld.step ratSqrt (fun _ s => s)).2.countP StepEvent.isCheck = 3 ∧
    (exWorld.step ratSqrt (fun _ s => s)).2.count
      (StepEvent.check (BodyRef.ship 0) (BodyRef.ship 2)) = 1 ∧
    (exWorld.step ratSqrt (fun _ s => s)).2.count
      (StepEvent.integrate (BodyRef.projectile 0)) = 1 ∧
    StepEvent.check (BodyRef.ship 2) (BodyRef.ship 0)
      ∉ (exWorld.step ratSqrt (fun _ s => s)).2 ∧
    (exWorld.step ratSqrt (fun _ s => s)).1.m_projectiles = [⟨exD.step ratSqrt⟩] ∧
    (exWorld.step ratSqrt (fun _ s => s)).1.m_ships.length = 3 ∧
    (exWorld.step ratSqrt (fun _ s => s)).1.m_ships[0]?
      = some ((hookAndStep ratSqrt (fun _ s => s) exWorld
          ((⟨exA, 0⟩ : Ship ℚ).addImpulse 0)).addImpulse
            (impulseSum (exWorld.outgoing ratSqrt (fun _ s => s) 0))) ∧
    (exWorld.outgoing ratSqrt (fun _ s => s) 0).length = 2 := by
  have h := step_schedule ratSqrt (fun _ s => s) exWorld
  refine ⟨h.2.2.2.2.1, h.2.2.1 0 2 (by norm_num) (by simp [exWorld]),
    h.2.1 0 (by simp [exWorld]), ?_, ?_, ?_, ?_, by simp [World.outgoing, exWorld]⟩
  · intro hmem
    obtain ⟨i, j, hi, hj, hij, _⟩ := h.2.2.2.1 _ _ hmem
    cases hi
    cases hj
    omega
  · rw [h.2.2.2.2.2.2.2.1]
    simp [exWorld]
  · rw [h.2.2.2.2.2.2.2.2.1]
    simp [exWorld]
  · obtain ⟨s0, hs0, _, _, hfin⟩ := h.2.2.2.2.2.2.2.2.2.1 0 (by simp [exWorld])
    have e0 : s0 = (⟨exA, 0⟩ : Ship ℚ) := by
      have h0 : exWorld.m_ships[0]? = some (⟨exA, 0⟩ : Ship ℚ) := rfl
      rw [h0] at hs0
      exact (Option.some.inj hs0).symm
    rw [hfin, e0]
    rfl

end Claims

end Luola
